import Mathlib

/-!
# Verification development for `QtClient/JoplinQtClient/models/basemodel.cpp`

A shallow embedding of the active-record base class `jop::BaseModel`:
the tagged `Value`, the process-wide field schema registry and query-result
cache, the dirty-tracking record (`values_`, `changedFields_`) and the
`save` / `dispose` / `loadSqlQuery` operations, followed by theorems about them.

Conventions of the embedding

* `QHash<QString, V>` and `QMap<QString, V>` are association lists
  `List (String × V)`.  A `QHash` keeps its entries in insertion order (Qt leaves
  the iteration order of a hash unspecified); a `QMap` keeps them ordered by key,
  as Qt iterates a map.
* The overridable methods `table()`, `primaryKey()`, `primaryKeyIsUuid()`,
  `trackChanges()` of a concrete entity type are the fields of `ModelClass`.
* Process-wide statics (`tableFields_`, `cache_`) are passed explicitly.
* The collaborators that are not part of this file of the program (database,
  clock, UUID generator) are inputs: their answers are the fields of `SaveEnv`,
  and the calls made to them are recorded in the result.
* A call `change.save()` is `BaseModel::save()` run on the Change record with the
  answers of class `Change`; its calls on the database and its effects on the two
  statics are part of the result of the enclosing `save()` or `dispose()`.
* C++ `int` is `Int`; the one narrowing cast of the code, `(int)(msecs / 1000)`,
  is `toInt32`.
-/

namespace jop

/-! ## Qt containers -/

/-- Embeds `QHash<QString, V>`: association list, keys pairwise distinct. -/
abbrev QHash (V : Type) := List (String × V)

/-- Embeds `QMap<QString, V>`: association list ordered by key. -/
abbrev QMap (V : Type) := List (String × V)

namespace QHash

/-- Embeds `QHash::contains(key)`. -/
def contains {V : Type} (h : QHash V) (k : String) : Bool :=
  match h with
  | [] => false
  | (k1, _) :: rest => if k1 = k then true else contains rest k

/-- Lookup of the entry stored under `key` (`none` when there is none). -/
def get? {V : Type} (h : QHash V) (k : String) : Option V :=
  match h with
  | [] => none
  | (k1, v1) :: rest => if k1 = k then some v1 else get? rest k

/-- Embeds `QHash::insert(key, value)`: replaces the value of an existing key, adds the
entry otherwise. -/
def insert {V : Type} (h : QHash V) (k : String) (v : V) : QHash V :=
  match h with
  | [] => [(k, v)]
  | (k1, v1) :: rest => if k1 = k then (k, v) :: rest else (k1, v1) :: insert rest k v

/-- Embeds `QHash::remove(key)`. -/
def remove {V : Type} (h : QHash V) (k : String) : QHash V :=
  match h with
  | [] => []
  | (k1, v1) :: rest => if k1 = k then remove rest k else (k1, v1) :: remove rest k

/-- The keys, in iteration order. -/
def keys {V : Type} (h : QHash V) : List String := h.map Prod.fst

/-- Embeds `QHash::size()`. -/
def size {V : Type} (h : QHash V) : Nat := h.length

end QHash

/-- The UTF-16 code units of one character: the code point itself below U+10000, a
high and a low surrogate from U+10000 on. -/
def utf16Units (c : Char) : List Nat :=
  if c.toNat < 65536 then [c.toNat]
  else [55296 + (c.toNat - 65536) / 1024, 56320 + (c.toNat - 65536) % 1024]

/-- The UTF-16 code units of a sequence of characters. -/
def unitsOf : List Char → List Nat
  | [] => []
  | c :: cs => utf16Units c ++ unitsOf cs

/-- The UTF-16 code units of a string, the sequence a `QString` stores and
compares. -/
def codeUnits (s : String) : List Nat := unitsOf s.toList

/-- Lexicographic comparison of code-unit sequences. -/
def ltCodes : List Nat → List Nat → Bool
  | [], [] => false
  | [], _ :: _ => true
  | _ :: _, [] => false
  | a :: as, b :: bs => if a < b then true else if b < a then false else ltCodes as bs

/-- Embeds `operator<` on `QString`, the key order of `QMap<QString, V>`. -/
def qstringLt (a b : String) : Bool := ltCodes (codeUnits a) (codeUnits b)

namespace QMap

/-- Embeds `QMap::contains(key)`. -/
def contains {V : Type} (m : QMap V) (k : String) : Bool :=
  match m with
  | [] => false
  | (k1, _) :: rest => if k1 = k then true else contains rest k

/-- Lookup of the entry stored under `key` (`none` when there is none). -/
def get? {V : Type} (m : QMap V) (k : String) : Option V :=
  match m with
  | [] => none
  | (k1, v1) :: rest => if k1 = k then some v1 else get? rest k

/-- Assignment `map[key] = value`: replaces the value of an existing key, adds the
entry at its place in key order otherwise. -/
def insert {V : Type} (m : QMap V) (k : String) (v : V) : QMap V :=
  match m with
  | [] => [(k, v)]
  | (k1, v1) :: rest =>
    if k1 = k then (k, v) :: rest
    else if qstringLt k k1 then (k, v) :: (k1, v1) :: rest
    else (k1, v1) :: insert rest k v

/-- The keys, in iteration order. -/
def keys {V : Type} (m : QMap V) : List String := m.map Prod.fst

end QMap

/-! ## QVariant and Value -/

/-- The `QMetaType::Type` ids the code compares against. -/
def QMetaType.UnknownType : Nat := 0
/-- Id of `bool`. -/
def QMetaType.Bool : Nat := 1
/-- Id of `int`. -/
def QMetaType.Int : Nat := 2
/-- Id of `double`. -/
def QMetaType.Double : Nat := 6
/-- Id of `QString`. -/
def QMetaType.QString : Nat := 10

/-- A `QVariant`, by runtime type.  The payload of a floating-point variant is
never read by this code and is kept as an uninterpreted bit pattern. -/
inductive QVariant where
  | null : QVariant
  | bool (b : Bool) : QVariant
  | int (i : Int) : QVariant
  | double (bits : Nat) : QVariant
  | string (s : String) : QVariant
  deriving DecidableEq, Repr

/-- Embeds `QVariant::type()`, as a `QMetaType::Type` id. -/
def QVariant.type : QVariant → Nat
  | .null => QMetaType.UnknownType
  | .bool _ => QMetaType.Bool
  | .int _ => QMetaType.Int
  | .double _ => QMetaType.Double
  | .string _ => QMetaType.QString

/-- Embeds `QVariant::isValid()`. -/
def QVariant.isValid (v : QVariant) : Bool := decide (v.type ≠ QMetaType.UnknownType)

/-- Embeds `BaseModel::Value`: the members `type_`, `stringValue_`, `intValue_`.
A member that a constructor does not assign holds `""` / `0`. -/
structure Value where
  type_ : Nat
  stringValue_ : String
  intValue_ : Int
  deriving DecidableEq, Repr

namespace Value

/-- Modelled from the spec: `Value::Value() {}` assigns no member and the member
declarations are in basemodel.h, which is not among the sources; the spec calls
the default Value absent/invalid, so its tag is `UnknownType`. -/
def default : Value := ⟨QMetaType.UnknownType, "", 0⟩

/-- Embeds `Value::Value(const QString &v)`. -/
def ofString (v : String) : Value := ⟨QMetaType.QString, v, 0⟩

/-- Embeds `Value::Value(int v)`. -/
def ofInt (v : Int) : Value := ⟨QMetaType.Int, "", v⟩

/-- Embeds `Value::Value(const QVariant &v)`: the tag is the variant's runtime type; the
payload is read only for a string or an int variant. -/
def ofQVariant (v : QVariant) : Value :=
  match v with
  | .string s => ⟨QMetaType.QString, s, 0⟩
  | .int i => ⟨QMetaType.Int, "", i⟩
  | other => ⟨other.type, "", 0⟩

/-- Embeds `Value::toInt()`. -/
def toInt (v : Value) : Int := v.intValue_

/-- Embeds `Value::toString()`. -/
def toString (v : Value) : String := v.stringValue_

/-- Embeds `Value::type()`. -/
def type (v : Value) : Nat := v.type_

/-- Embeds `Value::toQVariant()`. -/
def toQVariant (v : Value) : QVariant :=
  if v.type = QMetaType.QString then QVariant.string v.toString
  else if v.type = QMetaType.Int then QVariant.int v.toInt
  else QVariant.null

/-- Embeds `Value::isValid()`. -/
def isValid (v : Value) : Bool := decide (0 < v.type_)

/-- Embeds `Value::isEqual(const Value &v)`. -/
def isEqual (self v : Value) : Bool :=
  if self.type ≠ v.type then false
  else if v.type = QMetaType.QString then decide (self.toString = v.toString)
  else if v.type = QMetaType.Int then decide (self.toInt = v.toInt)
  else false

end Value

/-! ## The record -/

/-- The members of a `BaseModel` instance. -/
structure BaseModel where
  values_ : QHash Value
  changedFields_ : QHash Bool
  deriving DecidableEq, Repr

namespace BaseModel

/-- Embeds `BaseModel::BaseModel()`. -/
def new : BaseModel := ⟨[], []⟩

/-- Embeds `BaseModel::changedFields()`. -/
def changedFields (m : BaseModel) : List String := QHash.keys m.changedFields_

/-- Embeds `BaseModel::values()`. -/
def values (m : BaseModel) : QHash Value := m.values_

/-- Embeds `BaseModel::valueIsSet(name)`. -/
def valueIsSet (m : BaseModel) (name : String) : Bool := QHash.contains m.values_ name

/-- Embeds `BaseModel::value(name)`. -/
def value (m : BaseModel) (name : String) : Value :=
  if !m.valueIsSet name then Value.default
  else (QHash.get? m.values_ name).getD Value.default

/-- Embeds `BaseModel::setValue(const QString &name, const Value &value)`. -/
def setValue (m : BaseModel) (name : String) (value : Value) : BaseModel :=
  if !QHash.contains m.values_ name then
    { values_ := QHash.insert m.values_ name value,
      changedFields_ := QHash.insert m.changedFields_ name true }
  else
    let v := (QHash.get? m.values_ name).getD Value.default
    if v.isEqual value then m
    else
      { values_ := QHash.insert m.values_ name value,
        changedFields_ := QHash.insert m.changedFields_ name true }

/-- Embeds `BaseModel::setValue(const QString &name, int value)`. -/
def setValueInt (m : BaseModel) (name : String) (value : Int) : BaseModel :=
  m.setValue name (Value.ofInt value)

/-- Embeds `BaseModel::setValue(const QString &name, const QString &value)`. -/
def setValueString (m : BaseModel) (name : String) (value : String) : BaseModel :=
  m.setValue name (Value.ofString value)

/-- Embeds `BaseModel::setValue(const QString &name, const QVariant &value)`. -/
def setValueVariant (m : BaseModel) (name : String) (value : QVariant) : BaseModel :=
  m.setValue name (Value.ofQVariant value)

end BaseModel

/-! ## Entity types, tables and the field schema registry -/

/-- Modelled from the spec: `enum jop::Table` is declared in a header that is not
among the sources; the spec lists the known tables Folders, Notes, Changes and an
Undefined sentinel, the four enumerators this file names. -/
inductive Table where
  | UndefinedTable : Table
  | FoldersTable : Table
  | NotesTable : Table
  | ChangesTable : Table
  deriving DecidableEq, Repr

/-- Modelled from the spec: the integer an enumerator of `jop::Table` converts to
(the declaration is not among the sources); any injective numbering serves. -/
def Table.toInt : Table → Int
  | .UndefinedTable => 0
  | .FoldersTable => 1
  | .NotesTable => 2
  | .ChangesTable => 3

/-- Modelled from the spec: `Change::Type` is declared in models/change.h, which is
not among the sources; the spec names the change types Create, Update, Delete. -/
inductive ChangeType where
  | Create : ChangeType
  | Update : ChangeType
  | Delete : ChangeType
  deriving DecidableEq, Repr

/-- Modelled from the spec: the integer an enumerator of `Change::Type` converts
to (the declaration is not among the sources); any injective numbering serves. -/
def ChangeType.toInt : ChangeType → Int
  | .Create => 1
  | .Update => 2
  | .Delete => 3

/-- The overridable methods of `BaseModel`, as a concrete entity type answers
them. -/
structure ModelClass where
  table : Table
  primaryKey : String
  primaryKeyIsUuid : Bool
  trackChanges : Bool
  deriving DecidableEq, Repr

/-- The answers of `BaseModel` itself: `table()` is `UndefinedTable`,
`primaryKey()` is `"id"`, `primaryKeyIsUuid()` and `trackChanges()` are false. -/
def ModelClass.base : ModelClass := ⟨Table.UndefinedTable, "id", false, false⟩

/-- Modelled from the spec: the answers of class `Change`, which is declared in
models/change.h, not among the sources.  The spec has it map to the Changes table and
presumes it is not change-tracked; the key keeps the default name `id` and, being
declared `Int` in the Changes schema, is assigned by the store. -/
def ModelClass.change : ModelClass := ⟨Table.ChangesTable, "id", false, false⟩

/-- Embeds `BaseModel::Field`. -/
structure Field where
  name : String
  type : Nat
  deriving DecidableEq, Repr

/-- Embeds `createField(name, type)`. -/
def createField (name : String) (type : Nat) : Field := ⟨name, type⟩

/-- The static `BaseModel::tableFields_`. -/
abbrev Registry := List (Table × List Field)

/-- Embeds `tableFields_.contains(table)`. -/
def Registry.contains (reg : Registry) (t : Table) : Bool :=
  match reg with
  | [] => false
  | (t1, _) :: rest => if t1 = t then true else Registry.contains rest t

/-- Embeds `tableFields_[table]` on a key that is present. -/
def Registry.get? (reg : Registry) (t : Table) : Option (List Field) :=
  match reg with
  | [] => none
  | (t1, fs) :: rest => if t1 = t then some fs else Registry.get? rest t

/-- Embeds `tableFields_[table] = output`. -/
def Registry.set (reg : Registry) (t : Table) (fs : List Field) : Registry :=
  match reg with
  | [] => [(t, fs)]
  | (t1, fs1) :: rest => if t1 = t then (t, fs) :: rest else (t1, fs1) :: Registry.set rest t fs

/-- The field list that `tableFields` builds for a table that is not cached
(lines 175-188). -/
def declaredFields (table : Table) : List Field :=
  if table = Table.FoldersTable then
    [createField "id" QMetaType.QString,
     createField "title" QMetaType.QString,
     createField "created_time" QMetaType.Int,
     createField "updated_time" QMetaType.Int]
  else if table = Table.ChangesTable then
    [createField "id" QMetaType.Int,
     createField "type" QMetaType.Int,
     createField "item_id" QMetaType.QString,
     createField "item_type" QMetaType.Int,
     createField "item_field" QMetaType.QString]
  else []

/-- Embeds `BaseModel::tableFields(table)`: the returned field list and the registry
afterwards. -/
def tableFields (reg : Registry) (table : Table) : List Field × Registry :=
  if Registry.contains reg table then ((Registry.get? reg table).getD [], reg)
  else
    let output := declaredFields table
    (output, Registry.set reg table output)

/-- The scan `foreach (Field field, fields) if (field.name == name) return true;`. -/
def anyFieldNamed (fields : List Field) (name : String) : Bool :=
  match fields with
  | [] => false
  | field :: rest => if field.name = name then true else anyFieldNamed rest name

/-- Embeds `BaseModel::hasField(table, name)`: the answer and the registry afterwards. -/
def hasField (reg : Registry) (table : Table) (name : String) : Bool × Registry :=
  let r := tableFields reg table
  (anyFieldNamed r.1 name, r.2)

/-- Embeds `BaseModel::tableFieldNames(table)`. -/
def tableFieldNames (reg : Registry) (table : Table) : List String × Registry :=
  let r := tableFields reg table
  (r.1.map Field.name, r.2)

/-- Embeds `BaseModel::isValidFieldName(table, name)`. -/
def isValidFieldName (reg : Registry) (table : Table) (name : String) : Bool × Registry :=
  let r := tableFields reg table
  (anyFieldNamed r.1 name, r.2)

/-- Embeds `BaseModel::tableName(t)`. -/
def tableName (t : Table) : String :=
  if t = Table.FoldersTable then "folders"
  else if t = Table.NotesTable then "notes"
  else if t = Table.ChangesTable then "changes"
  else "UNDEFINED"

/-! ## The query-result cache -/

/-- Embeds `BaseModel::cacheGet(key)`. -/
def cacheGet (cache : QHash QVariant) (key : String) : QVariant :=
  if !QHash.contains cache key then QVariant.null
  else (QHash.get? cache key).getD QVariant.null

/-- Embeds `BaseModel::cacheSet(key, value)`. -/
def cacheSet (cache : QHash QVariant) (key : String) (value : QVariant) : QHash QVariant :=
  QHash.insert cache key value

/-- Embeds `BaseModel::cacheDelete(key)`. -/
def cacheDelete (cache : QHash QVariant) (key : String) : QHash QVariant :=
  QHash.remove cache key

/-- The key `QString("%1:count").arg(tableName)`; no table name holds a place
marker, so the substitution is a concatenation. -/
def countKey (tableName : String) : String := tableName ++ ":count"

/-! ## Loading a row -/

/-- A positioned `QSqlQuery` as `loadSqlQuery` reads it: `record().indexOf(name)`
(negative when the row has no such column), `value(idx).toString()` and
`value(idx).toInt()`. -/
structure QSqlQuery where
  indexOf : String → Int
  valueToString : Int → String
  valueToInt : Int → Int

/-- One iteration of the loop of `loadSqlQuery` (lines 225-237). -/
def loadField (query : QSqlQuery) (values : QHash Value) (field : Field) : QHash Value :=
  let idx := query.indexOf field.name
  if idx < 0 then values
  else if field.type = QMetaType.QString then
    QHash.insert values field.name (Value.ofString (query.valueToString idx))
  else if field.type = QMetaType.Int then
    QHash.insert values field.name (Value.ofInt (query.valueToInt idx))
  else values

namespace BaseModel

/-- Embeds `BaseModel::isNew()`. -/
def isNew (c : ModelClass) (m : BaseModel) : Bool := !m.valueIsSet c.primaryKey

/-- Embeds `BaseModel::id()`; `return QVariant();` converts the null variant to a Value. -/
def id (c : ModelClass) (m : BaseModel) : Value :=
  if !m.valueIsSet c.primaryKey then Value.ofQVariant QVariant.null
  else m.value c.primaryKey

/-- Embeds `BaseModel::loadSqlQuery(query)`: the record and the registry afterwards. -/
def loadSqlQuery (c : ModelClass) (reg : Registry) (_m : BaseModel) (query : QSqlQuery) :
    BaseModel × Registry :=
  let r := tableFields reg c.table
  ({ values_ := r.1.foldl (loadField query) [], changedFields_ := [] }, r.2)

end BaseModel

/-! ## Saving and deleting -/

/-- The conversion of a 64-bit integer to `int`: reduction modulo `2^32` into
`[-2^31, 2^31)`. -/
def toInt32 (x : Int) : Int := (x + 2147483648) % 4294967296 - 2147483648

/-- The expression `(int)(QDateTime::currentMSecsSinceEpoch() / 1000)`, given the
clock reading in milliseconds; the division of C++ truncates toward zero. -/
def epochSeconds (nowMs : Int) : Int := toInt32 (Int.tdiv nowMs 1000)

/-- The answers of the collaborators during one `save()` or `dispose()`:
`uuid::createUuid()`, `QDateTime::currentMSecsSinceEpoch()` and
`jop::db().errorCheck(q)` for the INSERT, UPDATE or DELETE. -/
structure SaveEnv where
  uuid : String
  nowMs : Int
  writeOk : Bool
  deriving DecidableEq, Repr

/-- A call made on `jop::db()`. -/
inductive DbCall where
  | transaction : DbCall
  | commit : DbCall
  | execInsert (tableName : String) (values : QMap QVariant) : DbCall
  | execUpdate (tableName : String) (values : QMap QVariant) (predicate : String) : DbCall
  | execDelete (sql : String) (boundId : String) : DbCall
  deriving DecidableEq, Repr

/-- The predicate `QString("%1 = '%2'").arg(primaryKey).arg(idText)`, written as
the concatenation the substitution yields when the key name holds no place
marker. -/
def updatePredicate (primaryKey idText : String) : String :=
  primaryKey ++ " = '" ++ idText ++ "'"

/-- The Change record built before `change.save()` (lines 100-103, 107-111 and
134-137): a default-constructed record, then `setValue` of `item_id`, `item_type`,
`type` and, for an update, `item_field`. -/
def changeRecord (itemId : Value) (table : Table) (type : ChangeType)
    (itemField : Option String) : BaseModel :=
  let change := BaseModel.new
  let change := change.setValue "item_id" itemId
  let change := change.setValueInt "item_type" table.toInt
  let change := change.setValueInt "type" type.toInt
  match itemField with
  | none => change
  | some field => change.setValueString "item_field" field

/-- What one call of `save()` or `dispose()` returns and leaves behind: the
returned flag, the record, the two statics, the calls made on the database in
order (those of the nested `change.save()` calls included), and the Change records on
which `save()` was called, in order. -/
structure Outcome where
  output : Bool
  model : BaseModel
  tableFields_ : Registry
  cache_ : QHash QVariant
  dbCalls : List DbCall
  journal : List BaseModel
  deriving DecidableEq, Repr

namespace BaseModel

/-- Lines 47-51 of `save()`: the dirty fields with their current values. -/
def collectValues (m : BaseModel) (fields : List String) : QMap QVariant :=
  fields.foldl (fun values field => QMap.insert values field (m.value field).toQVariant) []

/-- Lines 56-58 of `save()`: the generated primary key of a new UUID-keyed
record. -/
def withUuid (c : ModelClass) (env : SaveEnv) (isNew : Bool) (values : QMap QVariant) :
    QMap QVariant :=
  if isNew && c.primaryKeyIsUuid then QMap.insert values c.primaryKey (QVariant.string env.uuid)
  else values

/-- Lines 63-73 of `save()`: the time stamps; returns the value map and the
registry after the `hasField` call, if one is made. -/
def withTimestamps (c : ModelClass) (env : SaveEnv) (reg : Registry) (isNew : Bool)
    (values : QMap QVariant) : QMap QVariant × Registry :=
  if isNew then
    let h := hasField reg c.table "created_time"
    if h.1 then (QMap.insert values "created_time" (QVariant.int (epochSeconds env.nowMs)), h.2)
    else (values, h.2)
  else
    if !QMap.contains values "updated_time" then
      let h := hasField reg c.table "updated_time"
      if h.1 then (QMap.insert values "updated_time" (QVariant.int (epochSeconds env.nowMs)), h.2)
      else (values, h.2)
    else (values, reg)

/-- Lines 45-73 of `save()`: the value map handed to `buildSqlQuery`. -/
def saveValues (c : ModelClass) (env : SaveEnv) (reg : Registry) (m : BaseModel) :
    QMap QVariant × Registry :=
  let isNew := m.isNew c
  withTimestamps c env reg isNew (withUuid c env isNew (collectValues m m.changedFields))

/-- Lines 98-115 of `save()`: the Change records saved after a write. -/
def saveJournal (c : ModelClass) (isNew : Bool) (output : Bool) (m : BaseModel)
    (values : QMap QVariant) : List BaseModel :=
  if output && c.trackChanges then
    if isNew then [changeRecord (m.id c) c.table ChangeType.Create none]
    else (QMap.keys values).map
      (fun key => changeRecord (m.id c) c.table ChangeType.Update (some key))
  else []

/-- The calls `change.save()` of one `save()` or `dispose()`, made on the Change
records in order; `saveChange` is what one such call does to the two statics and which
calls it makes on the database. -/
def saveEach (saveChange : Registry → QHash QVariant → BaseModel →
      Registry × QHash QVariant × List DbCall)
    (reg : Registry) (cache : QHash QVariant) (changes : List BaseModel) :
    Registry × QHash QVariant × List DbCall :=
  changes.foldl
    (fun acc change =>
      let r := saveChange acc.1 acc.2.1 change
      (r.1, r.2.1, acc.2.2 ++ r.2.2))
    (reg, cache, [])

/-- The body of `BaseModel::save()`, lines 40-120, for a record of entity type `c`;
`saveChange` is what a call `change.save()` at line 104 or 112 does.  The Change records
are saved after the write and before the commit of line 117. -/
def saveWith (saveChange : Registry → QHash QVariant → BaseModel →
      Registry × QHash QVariant × List DbCall)
    (c : ModelClass) (env : SaveEnv) (reg : Registry) (cache : QHash QVariant)
    (m : BaseModel) : Outcome :=
  let isNew := m.isNew c
  if QHash.size m.changedFields_ = 0 ∧ isNew = false then
    { output := true, model := m, tableFields_ := reg, cache_ := cache,
      dbCalls := [], journal := [] }
  else
    let vr := saveValues c env reg m
    let values := vr.1
    let m1 : BaseModel := { values_ := m.values_, changedFields_ := [] }
    let name := tableName c.table
    let cache1 := if isNew then cacheDelete cache (countKey name) else cache
    if isNew then
      let output := env.writeOk
      let m2 := if output then
          m1.setValueVariant "id" ((QMap.get? values "id").getD QVariant.null)
        else m1
      let journal := saveJournal c isNew output m2 values
      let nested := saveEach saveChange vr.2 cache1 journal
      { output := output, model := m2, tableFields_ := nested.1, cache_ := nested.2.1,
        dbCalls := [DbCall.transaction, DbCall.execInsert name values] ++ nested.2.2 ++
          [DbCall.commit],
        journal := journal }
    else
      let output := env.writeOk
      let journal := saveJournal c isNew output m1 values
      let nested := saveEach saveChange vr.2 cache1 journal
      { output := output, model := m1, tableFields_ := nested.1, cache_ := nested.2.1,
        dbCalls := [DbCall.transaction,
          DbCall.execUpdate name values (updatePredicate c.primaryKey (m1.value "id").toString)] ++
          nested.2.2 ++ [DbCall.commit],
        journal := journal }

/-- The call `change.save()` of lines 104, 112 and 138: `BaseModel::save()` on the Change
record, with the answers of class `Change`.  That class tracks no changes, so this save
reaches no `change.save()` of its own, and the inner argument is applied to no record.
The Change object is dropped after the call, so only the statics and the calls on the
database remain.  The answers `env` are those of the enclosing call: a Change save does
not consult the generator, reads the clock only if the registry lists `created_time` for
the changes table, which the declared schema does not, and the answer to its INSERT
decides no more than whether the dropped object receives its id. -/
def saveChange (env : SaveEnv) (reg : Registry) (cache : QHash QVariant)
    (change : BaseModel) : Registry × QHash QVariant × List DbCall :=
  let o := saveWith (fun reg2 cache2 _ => (reg2, cache2, [])) ModelClass.change env reg cache
    change
  (o.tableFields_, o.cache_, o.dbCalls)

/-- Embeds `BaseModel::save()`. -/
def save (c : ModelClass) (env : SaveEnv) (reg : Registry) (cache : QHash QVariant)
    (m : BaseModel) : Outcome :=
  saveWith (saveChange env) c env reg cache m

/-- Embeds `BaseModel::dispose()`. -/
def dispose (c : ModelClass) (env : SaveEnv) (reg : Registry) (cache : QHash QVariant)
    (m : BaseModel) : Outcome :=
  let name := tableName c.table
  let output := env.writeOk
  let cache1 := if output then cacheDelete cache (countKey name) else cache
  let journal := if output && c.trackChanges then
      [changeRecord (m.id c) c.table ChangeType.Delete none]
    else []
  let nested := saveEach (saveChange env) reg cache1 journal
  { output := output, model := m, tableFields_ := nested.1, cache_ := nested.2.1,
    dbCalls := [DbCall.execDelete
      ("DELETE FROM " ++ name ++ " WHERE " ++ c.primaryKey ++ " = :id") (m.id c).toString] ++
      nested.2.2,
    journal := journal }

end BaseModel

/-! ## Sequences of calls on one record -/

/-- One call made on a record by its owner. -/
inductive Op where
  | loadSqlQuery (query : QSqlQuery) : Op
  | setValue (name : String) (value : Value) : Op
  | save (env : SaveEnv) : Op
  | dispose (env : SaveEnv) : Op

/-- The record together with the two statics. -/
structure World where
  model : BaseModel
  tableFields_ : Registry
  cache_ : QHash QVariant

/-- The effect of one call on a record of entity type `c`. -/
def step (c : ModelClass) (w : World) (op : Op) : World :=
  match op with
  | .loadSqlQuery query =>
    let r := w.model.loadSqlQuery c w.tableFields_ query
    ⟨r.1, r.2, w.cache_⟩
  | .setValue name value => ⟨w.model.setValue name value, w.tableFields_, w.cache_⟩
  | .save env =>
    let o := w.model.save c env w.tableFields_ w.cache_
    ⟨o.model, o.tableFields_, o.cache_⟩
  | .dispose env =>
    let o := w.model.dispose c env w.tableFields_ w.cache_
    ⟨o.model, o.tableFields_, o.cache_⟩

/-- The effect of a sequence of calls. -/
def run (c : ModelClass) (w : World) (ops : List Op) : World := ops.foldl (step c) w

/-- The states of `tableFields_` that calls of `tableFields` produce from the empty
registry. -/
inductive Registry.Reachable : Registry → Prop where
  | empty : Registry.Reachable []
  | call (reg : Registry) (table : Table) :
      Registry.Reachable reg → Registry.Reachable (tableFields reg table).2

/-- Every dirty field of the record is a key of `values_`. -/
def DirtyWithinValues (m : BaseModel) : Prop :=
  ∀ n, n ∈ m.changedFields → m.valueIsSet n = true

/-- Every cached field list of the registry is the declared list of its table. -/
def Registry.Consistent (reg : Registry) : Prop :=
  ∀ t fs, Registry.get? reg t = some fs → fs = declaredFields t

/-! ## Counting rows through the cache -/

/-- Embeds `QVariant::toInt()`: an int variant gives its int, a bool variant 0 or 1,
the null variant 0.  For a string or a floating-point variant Qt parses or rounds the
payload; that conversion of the library is the argument `convert`. -/
def QVariant.toInt (convert : QVariant → Int) : QVariant → Int
  | .null => 0
  | .bool b => if b then 1 else 0
  | .int i => i
  | v => convert v

/-- What one call of `count(table)` returns and leaves behind: the returned count, the
cache, and the SQL texts executed on the database. -/
structure CountOutcome where
  output : Int
  cache_ : QHash QVariant
  queries : List String
  deriving DecidableEq, Repr

/-- Embeds `BaseModel::count(table)`; `rowCount` is what the database answers to the
count query, read by `q.value(0).toInt()`. -/
def count (convert : QVariant → Int) (cache : QHash QVariant) (table : Table)
    (rowCount : Int) : CountOutcome :=
  let t := tableName table
  let k := countKey t
  let r := cacheGet cache k
  if r.isValid then { output := r.toInt convert, cache_ := cache, queries := [] }
  else
    let output := rowCount
    { output := output, cache_ := cacheSet cache k (QVariant.int output),
      queries := ["SELECT count(*) AS row_count FROM " ++ t] }

/-! ## Lemmas on the containers -/

namespace QHash

theorem contains_insert_self {V : Type} (h : QHash V) (k : String) (v : V) :
    contains (insert h k v) k = true := by
  induction h with
  | nil => simp [insert, contains]
  | cons p rest ih =>
    obtain ⟨k1, v1⟩ := p
    by_cases hk : k1 = k <;> simp [insert, contains, hk, ih]

theorem contains_insert_of_ne {V : Type} (h : QHash V) (k k2 : String) (v : V) (hne : k2 ≠ k) :
    contains (insert h k v) k2 = contains h k2 := by
  induction h with
  | nil => simp [insert, contains, Ne.symm hne]
  | cons p rest ih =>
    obtain ⟨k1, v1⟩ := p
    by_cases hk : k1 = k
    · subst hk
      simp [insert, contains, Ne.symm hne]
    · by_cases hk2 : k1 = k2
      · subst hk2
        simp [insert, contains, hk]
      · simp [insert, contains, hk, hk2, ih]

theorem get?_insert_self {V : Type} (h : QHash V) (k : String) (v : V) :
    get? (insert h k v) k = some v := by
  induction h with
  | nil => simp [insert, get?]
  | cons p rest ih =>
    obtain ⟨k1, v1⟩ := p
    by_cases hk : k1 = k <;> simp [insert, get?, hk, ih]

theorem get?_insert_of_ne {V : Type} (h : QHash V) (k k2 : String) (v : V) (hne : k2 ≠ k) :
    get? (insert h k v) k2 = get? h k2 := by
  induction h with
  | nil => simp [insert, get?, Ne.symm hne]
  | cons p rest ih =>
    obtain ⟨k1, v1⟩ := p
    by_cases hk : k1 = k
    · subst hk
      simp [insert, get?, Ne.symm hne]
    · by_cases hk2 : k1 = k2
      · subst hk2
        simp [insert, get?, hk]
      · simp [insert, get?, hk, hk2, ih]

theorem contains_iff_mem_keys {V : Type} (h : QHash V) (k : String) :
    contains h k = true ↔ k ∈ keys h := by
  induction h with
  | nil => simp [contains, keys]
  | cons p rest ih =>
    obtain ⟨k1, v1⟩ := p
    by_cases hk : k1 = k
    · simp [contains, keys, hk]
    · have hk2 : ¬ k = k1 := fun e => hk e.symm
      simpa [contains, keys, hk, hk2] using ih

theorem contains_eq_isSome_get? {V : Type} (h : QHash V) (k : String) :
    contains h k = (get? h k).isSome := by
  induction h with
  | nil => simp [contains, get?]
  | cons p rest ih =>
    obtain ⟨k1, v1⟩ := p
    by_cases hk : k1 = k <;> simp [contains, get?, hk, ih]

end QHash

/-! ## `setValue` -/

namespace BaseModel

theorem value_of_get? (m : BaseModel) (name : String) (v : Value)
    (h : QHash.get? m.values_ name = some v) : m.value name = v := by
  have hc : QHash.contains m.values_ name = true := by
    rw [QHash.contains_eq_isSome_get?, h]; rfl
  simp [value, valueIsSet, hc, h]

theorem value_of_not_set (m : BaseModel) (name : String)
    (h : m.valueIsSet name = false) : m.value name = Value.default := by
  simp [value, h]

theorem isEqual_default_left (v : Value) : Value.default.isEqual v = false := by
  unfold Value.isEqual Value.default Value.type QMetaType.UnknownType QMetaType.QString
    QMetaType.Int
  by_cases h : 0 = v.type_
  · simp [← h]
  · simp [h]

theorem setValue_of_equal (m : BaseModel) (name : String) (v : Value)
    (hset : m.valueIsSet name = true) (heq : (m.value name).isEqual v = true) :
    m.setValue name v = m := by
  have hc : QHash.contains m.values_ name = true := hset
  have hv : m.value name = (QHash.get? m.values_ name).getD Value.default := by
    simp [value, hset]
  rw [hv] at heq
  simp [setValue, hc, heq]

theorem setValue_of_changed (m : BaseModel) (name : String) (v : Value)
    (h : m.valueIsSet name = false ∨ (m.value name).isEqual v = false) :
    m.setValue name v =
      { values_ := QHash.insert m.values_ name v,
        changedFields_ := QHash.insert m.changedFields_ name true } := by
  by_cases hc : QHash.contains m.values_ name = true
  · have hset : m.valueIsSet name = true := hc
    have hne : (m.value name).isEqual v = false := by
      rcases h with h | h
      · rw [hset] at h; cases h
      · exact h
    have hv : m.value name = (QHash.get? m.values_ name).getD Value.default := by
      simp [value, hset]
    rw [hv] at hne
    simp [setValue, hc, hne]
  · simp [setValue, hc]

theorem setValue_twice (m : BaseModel) (name : String) (v : Value)
    (hv : v.isEqual v = true) : (m.setValue name v).setValue name v = m.setValue name v := by
  by_cases h : m.valueIsSet name = true ∧ (m.value name).isEqual v = true
  · rw [setValue_of_equal m name v h.1 h.2, setValue_of_equal m name v h.1 h.2]
  · have h2 : m.valueIsSet name = false ∨ (m.value name).isEqual v = false := by
      by_cases hs : m.valueIsSet name = true
      · right
        cases hq : (m.value name).isEqual v
        · rfl
        · exact absurd ⟨hs, hq⟩ h
      · left
        simpa using hs
    rw [setValue_of_changed m name v h2]
    apply setValue_of_equal
    · simp [valueIsSet, QHash.contains_insert_self]
    · rw [value_of_get? _ name v (by simp [QHash.get?_insert_self])]
      exact hv

/-- C1: `setValue` is a no-op on an equal value.  If the field `name` is set and holds
a Value that `isEqual` to `v`, then `setValue(name, v)` returns the record unchanged:
`values_` and `changedFields_` are the same, so a clean field stays clean; and setting
the same string or the same integer twice gives the record that setting it once gives,
so the second call adds no dirty mark. -/
theorem setValue_equal_is_noop (m : BaseModel) (name : String) (v : Value)
    (hset : m.valueIsSet name = true) (heq : (m.value name).isEqual v = true) :
    m.setValue name v = m ∧
    (m.setValue name v).values_ = m.values_ ∧
    (m.setValue name v).changedFields_ = m.changedFields_ ∧
    (QHash.contains m.changedFields_ name = false →
      QHash.contains (m.setValue name v).changedFields_ name = false) ∧
    (∀ (r : BaseModel) (n s : String),
      (r.setValueString n s).setValueString n s = r.setValueString n s) ∧
    (∀ (r : BaseModel) (n : String) (i : Int),
      (r.setValueInt n i).setValueInt n i = r.setValueInt n i) := by
  have h := setValue_of_equal m name v hset heq
  refine ⟨h, by rw [h], by rw [h], fun hc => by rw [h]; exact hc, ?_, ?_⟩
  · intro r n s
    exact setValue_twice r n (Value.ofString s) (by simp [Value.isEqual, Value.ofString,
      Value.type, Value.toString])
  · intro r n i
    exact setValue_twice r n (Value.ofInt i) (by simp [Value.isEqual, Value.ofInt,
      Value.type, Value.toInt, QMetaType.Int, QMetaType.QString])

/-- Witness of C1: a record whose `title` is clean and holds the string `a`; setting
`title` to `a` again changes nothing. -/
theorem setValue_equal_is_noop_witness :
    (⟨[("title", Value.ofString "a")], []⟩ : BaseModel).setValue "title" (Value.ofString "a")
      = ⟨[("title", Value.ofString "a")], []⟩ :=
  (setValue_equal_is_noop ⟨[("title", Value.ofString "a")], []⟩ "title" (Value.ofString "a")
    (by decide) (by decide)).1

/-- C2: when `n` is not set, or holds a Value that is not `isEqual` to `v`, then after
`setValue(n, v)`: `valueIsSet(n)` is true, `value(n)` is `v`, `n` is in
`changedFields()`, and every other key has the entry in `values_` and the dirty mark it
had before. -/
theorem setValue_changed_sets_and_marks (m : BaseModel) (n : String) (v : Value)
    (h : m.valueIsSet n = false ∨ (m.value n).isEqual v = false) :
    (m.setValue n v).valueIsSet n = true ∧
    (m.setValue n v).value n = v ∧
    n ∈ (m.setValue n v).changedFields ∧
    (∀ k, k ≠ n → QHash.get? (m.setValue n v).values_ k = QHash.get? m.values_ k) ∧
    (∀ k, k ≠ n → (m.setValue n v).valueIsSet k = m.valueIsSet k) ∧
    (∀ k, k ≠ n → (m.setValue n v).value k = m.value k) ∧
    (∀ k, k ≠ n → (k ∈ (m.setValue n v).changedFields ↔ k ∈ m.changedFields)) ∧
    (∀ k, k ≠ n →
      QHash.get? (m.setValue n v).changedFields_ k = QHash.get? m.changedFields_ k) := by
  rw [setValue_of_changed m n v h]
  refine ⟨?_, ?_, ?_, ?_, ?_, ?_, ?_, ?_⟩
  · simp [valueIsSet, QHash.contains_insert_self]
  · exact value_of_get? _ n v (by simp [QHash.get?_insert_self])
  · simp only [changedFields]
    rw [← QHash.contains_iff_mem_keys]
    exact QHash.contains_insert_self _ _ _
  · intro k hk
    exact QHash.get?_insert_of_ne _ _ _ _ hk
  · intro k hk
    simp [valueIsSet, QHash.contains_insert_of_ne _ _ _ _ hk]
  · intro k hk
    simp [value, valueIsSet, QHash.contains_insert_of_ne _ _ _ _ hk,
      QHash.get?_insert_of_ne _ _ _ _ hk]
  · intro k hk
    simp only [changedFields]
    rw [← QHash.contains_iff_mem_keys, ← QHash.contains_iff_mem_keys,
      QHash.contains_insert_of_ne _ _ _ _ hk]
  · intro k hk
    exact QHash.get?_insert_of_ne _ _ _ _ hk

/-- Witness of C2: on a record whose clean `title` holds `a`, setting `title` to `b`
stores `b` and marks `title` dirty. -/
theorem setValue_changed_sets_and_marks_witness :
    ((⟨[("title", Value.ofString "a")], []⟩ : BaseModel).setValue "title"
        (Value.ofString "b")).value "title" = Value.ofString "b" ∧
    "title" ∈ ((⟨[("title", Value.ofString "a")], []⟩ : BaseModel).setValue "title"
        (Value.ofString "b")).changedFields :=
  have h := setValue_changed_sets_and_marks ⟨[("title", Value.ofString "a")], []⟩ "title"
    (Value.ofString "b") (Or.inr (by decide))
  ⟨h.2.1, h.2.2.1⟩

end BaseModel

/-! ## The dirty set stays inside the stored values -/

namespace BaseModel

theorem dirtyWithinValues_of_clean (vals : QHash Value) :
    DirtyWithinValues { values_ := vals, changedFields_ := [] } := by
  intro n hn
  simp [changedFields, QHash.keys] at hn

theorem dirtyWithinValues_setValue (m : BaseModel) (name : String) (v : Value)
    (hm : DirtyWithinValues m) : DirtyWithinValues (m.setValue name v) := by
  by_cases h : m.valueIsSet name = true ∧ (m.value name).isEqual v = true
  · rw [setValue_of_equal m name v h.1 h.2]
    exact hm
  · have h2 : m.valueIsSet name = false ∨ (m.value name).isEqual v = false := by
      by_cases hs : m.valueIsSet name = true
      · right
        cases hq : (m.value name).isEqual v
        · rfl
        · exact absurd ⟨hs, hq⟩ h
      · left
        simpa using hs
    rw [setValue_of_changed m name v h2]
    intro n hn
    simp only [changedFields] at hn
    rw [← QHash.contains_iff_mem_keys] at hn
    by_cases hk : n = name
    · subst hk
      simp [valueIsSet, QHash.contains_insert_self]
    · rw [QHash.contains_insert_of_ne _ _ _ _ hk] at hn
      have := hm n (by simp only [changedFields]; exact (QHash.contains_iff_mem_keys _ _).1 hn)
      simpa [valueIsSet, QHash.contains_insert_of_ne _ _ _ _ hk] using this

theorem dirtyWithinValues_save (c : ModelClass) (env : SaveEnv) (reg : Registry)
    (cache : QHash QVariant) (m : BaseModel) (hm : DirtyWithinValues m) :
    DirtyWithinValues (m.save c env reg cache).model := by
  unfold save saveWith
  by_cases h0 : QHash.size m.changedFields_ = 0 ∧ m.isNew c = false
  · simp only [h0, and_self, if_true]
    exact hm
  · simp only [h0, if_false]
    by_cases hnew : m.isNew c = true
    · simp only [hnew, if_true]
      by_cases hok : env.writeOk = true
      · simp only [hok, if_true]
        exact dirtyWithinValues_setValue _ _ _ (dirtyWithinValues_of_clean _)
      · simp only [hok]
        exact dirtyWithinValues_of_clean _
    · simp only [hnew]
      exact dirtyWithinValues_of_clean _

theorem dirtyWithinValues_step (c : ModelClass) (w : World) (op : Op)
    (hw : DirtyWithinValues w.model) : DirtyWithinValues (step c w op).model := by
  cases op with
  | loadSqlQuery query => exact dirtyWithinValues_of_clean _
  | setValue name value => exact dirtyWithinValues_setValue _ _ _ hw
  | save env => exact dirtyWithinValues_save _ _ _ _ _ hw
  | dispose env => exact hw

theorem dirtyWithinValues_run (c : ModelClass) (ops : List Op) (w : World)
    (hw : DirtyWithinValues w.model) : DirtyWithinValues (run c w ops).model := by
  induction ops generalizing w with
  | nil => exact hw
  | cons op rest ih => exact ih (step c w op) (dirtyWithinValues_step c w op hw)

/-- C3: starting from a freshly constructed record, after any sequence of
`loadSqlQuery`, `setValue`, `save` and `dispose` calls, whatever the database answers
to each write and whatever the entity type and the statics are, every name in
`changedFields()` is a key of `values_`. -/
theorem changedFields_within_values (c : ModelClass) (reg : Registry)
    (cache : QHash QVariant) (ops : List Op) (n : String)
    (hn : n ∈ (run c ⟨BaseModel.new, reg, cache⟩ ops).model.changedFields) :
    (run c ⟨BaseModel.new, reg, cache⟩ ops).model.valueIsSet n = true :=
  dirtyWithinValues_run c ops ⟨BaseModel.new, reg, cache⟩
    (dirtyWithinValues_of_clean []) n hn

/-- Witness of C3: a new folder record, `title` set, saved with a successful INSERT,
then `title` set again: the dirty field `title` is a key of `values_`. -/
theorem changedFields_within_values_witness :
    (run ⟨Table.FoldersTable, "id", true, true⟩ ⟨BaseModel.new, [], []⟩
      [Op.setValue "title" (Value.ofString "a"), Op.save ⟨"u1", 5000, true⟩,
       Op.setValue "title" (Value.ofString "b")]).model.valueIsSet "title" = true :=
  changedFields_within_values ⟨Table.FoldersTable, "id", true, true⟩ [] []
    [Op.setValue "title" (Value.ofString "a"), Op.save ⟨"u1", 5000, true⟩,
     Op.setValue "title" (Value.ofString "b")] "title" (by decide)

end BaseModel

/-! ## The key order of `QMap` -/

namespace QMap

theorem get?_assign_self {V : Type} (m : QMap V) (k : String) (v : V) :
    get? (insert m k v) k = some v := by
  induction m with
  | nil => simp [insert, get?]
  | cons p rest ih =>
    obtain ⟨k1, v1⟩ := p
    by_cases hk : k1 = k
    · simp [insert, get?, hk]
    · by_cases hlt : qstringLt k k1 = true <;> simp [insert, get?, hk, hlt, ih]

theorem get?_assign_of_ne {V : Type} (m : QMap V) (k k2 : String) (v : V) (hne : k2 ≠ k) :
    get? (insert m k v) k2 = get? m k2 := by
  induction m with
  | nil => simp [insert, get?, Ne.symm hne]
  | cons p rest ih =>
    obtain ⟨k1, v1⟩ := p
    by_cases hk : k1 = k
    · subst hk
      simp [insert, get?, Ne.symm hne]
    · by_cases hlt : qstringLt k k1 = true
      · simp [insert, get?, hk, hlt, Ne.symm hne]
      · by_cases hk2 : k1 = k2
        · subst hk2
          simp [insert, get?, hk, hlt]
        · simp [insert, get?, hk, hlt, hk2, ih]

theorem contains_eq_get?_isSome {V : Type} (m : QMap V) (k : String) :
    contains m k = (get? m k).isSome := by
  induction m with
  | nil => simp [contains, get?]
  | cons p rest ih =>
    obtain ⟨k1, v1⟩ := p
    by_cases hk : k1 = k <;> simp [contains, get?, hk, ih]

theorem insert_cons_eq {V : Type} (rest : QMap V) (k : String) (v v1 : V) :
    insert ((k, v1) :: rest) k v = (k, v) :: rest := by
  simp [insert]

end QMap

/-! ## `save()`: the dirty set, the no-op case and the primary key -/

namespace BaseModel

theorem save_existing_changedFields (c : ModelClass) (env : SaveEnv) (reg : Registry)
    (cache : QHash QVariant) (m : BaseModel) (hnew : m.isNew c = false) :
    (m.save c env reg cache).model.changedFields = [] := by
  unfold save saveWith
  by_cases h0 : QHash.size m.changedFields_ = 0
  · have hc : m.changedFields_ = [] := by
      cases hcf : m.changedFields_ with
      | nil => rfl
      | cons p rest => rw [hcf] at h0; simp [QHash.size] at h0
    simp [hnew, changedFields, hc, QHash.keys, QHash.size]
  · simp [h0, hnew, changedFields, QHash.keys]

theorem save_new_changedFields (c : ModelClass) (env : SaveEnv) (reg : Registry)
    (cache : QHash QVariant) (m : BaseModel) (hnew : m.isNew c = true)
    (hpk : c.primaryKey = "id") (hok : env.writeOk = true) :
    (m.save c env reg cache).output = true ∧
    (m.save c env reg cache).model.changedFields = ["id"] := by
  have hset : QHash.contains m.values_ "id" = false := by
    simpa [isNew, valueIsSet, hpk] using hnew
  unfold save saveWith
  simp [hnew, hok, setValueVariant, setValue, hset, changedFields, QHash.keys, QHash.insert]

/-- C4, evaluated on a new record: a folder record (`primaryKey()` is `id`, UUID key)
with `title` set is saved and the INSERT succeeds.  `save()` returns true and
`changedFields()` is `[id]` afterwards, not empty: line 91 stores the key with
`setValue`, which marks `id` dirty after line 75 cleared the dirty set. -/
theorem save_new_record_leaves_id_dirty :
    ((BaseModel.new.setValueString "title" "a").save
        ⟨Table.FoldersTable, "id", true, false⟩ ⟨"u1", 5000, true⟩ [] []).output = true ∧
    ((BaseModel.new.setValueString "title" "a").save
        ⟨Table.FoldersTable, "id", true, false⟩ ⟨"u1", 5000, true⟩ [] []).model.changedFields
      = ["id"] := by
  decide

/-- C6: for a record that is not new and has no dirty field, `save()` returns true,
calls nothing on the database (no transaction, no INSERT, no UPDATE), saves no Change
record, and leaves the record (`values_`, `changedFields_`), the cache and the schema
registry as they were. -/
theorem save_clean_existing_is_noop (c : ModelClass) (env : SaveEnv) (reg : Registry)
    (cache : QHash QVariant) (m : BaseModel)
    (hnew : m.isNew c = false) (hclean : m.changedFields = []) :
    m.save c env reg cache =
      { output := true, model := m, tableFields_ := reg, cache_ := cache,
        dbCalls := [], journal := [] } := by
  have hc : m.changedFields_ = [] := by
    cases hcf : m.changedFields_ with
    | nil => rfl
    | cons p rest => rw [changedFields, hcf] at hclean; simp [QHash.keys] at hclean
  unfold save saveWith
  simp [hnew, hc, QHash.size]

/-- Witness of C6: a folder record that holds its `id` and has no dirty field. -/
theorem save_clean_existing_is_noop_witness :
    (⟨[("id", Value.ofString "u1")], []⟩ : BaseModel).save
        ⟨Table.FoldersTable, "id", true, true⟩ ⟨"u2", 5000, false⟩ []
        [("folders:count", QVariant.int 3)] =
      { output := true, model := ⟨[("id", Value.ofString "u1")], []⟩, tableFields_ := [],
        cache_ := [("folders:count", QVariant.int 3)], dbCalls := [], journal := [] } :=
  save_clean_existing_is_noop ⟨Table.FoldersTable, "id", true, true⟩ ⟨"u2", 5000, false⟩ []
    [("folders:count", QVariant.int 3)] ⟨[("id", Value.ofString "u1")], []⟩
    (by decide) (by decide)

theorem save_new_uuid_id (c : ModelClass) (env : SaveEnv) (reg : Registry)
    (cache : QHash QVariant) (m : BaseModel) (hnew : m.isNew c = true)
    (hpk : c.primaryKey = "id") (huuid : c.primaryKeyIsUuid = true)
    (hok : env.writeOk = true) :
    (m.save c env reg cache).model.id c = Value.ofString env.uuid ∧
    (m.save c env reg cache).model.isNew c = false := by
  have hset : QHash.contains m.values_ "id" = false := by
    simpa [isNew, valueIsSet, hpk] using hnew
  have hts : ∀ vals : QMap QVariant,
      QMap.get? (withTimestamps c env reg true vals).1 "id" = QMap.get? vals "id" := by
    intro vals
    unfold withTimestamps
    by_cases hh : (hasField reg c.table "created_time").1 = true
    · simp [hh, QMap.get?_assign_of_ne _ "created_time" "id" _ (by decide)]
    · simp [hh]
  have hval : QMap.get? (m.saveValues c env reg).1 "id" = some (QVariant.string env.uuid) := by
    unfold saveValues
    rw [hnew, hts]
    simp [withUuid, huuid, hpk, QMap.get?_assign_self]
  unfold save saveWith
  simp [hnew, hok, hval, setValueVariant, setValue, hset, id, isNew, valueIsSet, value, hpk,
    QHash.contains_insert_self, QHash.get?_insert_self, Value.ofQVariant, Value.ofString,
    QMetaType.QString]

/-- C7, evaluated on an entity type whose `primaryKey()` is `uuid`: a new UUID-keyed
record with `title` set is saved, the INSERT succeeds and the generator returned `u1`.
The INSERT carries `uuid = u1`, but afterwards `id()` is an invalid Value with an empty
string and `isNew()` is still true: line 91 reads and stores the key under the literal
name `id`, not under `primaryKey()`. -/
theorem save_new_record_other_key_name :
    QMap.get? ((BaseModel.new.setValueString "title" "a").saveValues
        ⟨Table.FoldersTable, "uuid", true, false⟩ ⟨"u1", 5000, true⟩ []).1 "uuid"
      = some (QVariant.string "u1") ∧
    ((BaseModel.new.setValueString "title" "a").save
        ⟨Table.FoldersTable, "uuid", true, false⟩ ⟨"u1", 5000, true⟩ [] []).output = true ∧
    (((BaseModel.new.setValueString "title" "a").save
        ⟨Table.FoldersTable, "uuid", true, false⟩ ⟨"u1", 5000, true⟩ [] []).model.id
        ⟨Table.FoldersTable, "uuid", true, false⟩).isValid = false ∧
    (((BaseModel.new.setValueString "title" "a").save
        ⟨Table.FoldersTable, "uuid", true, false⟩ ⟨"u1", 5000, true⟩ [] []).model.id
        ⟨Table.FoldersTable, "uuid", true, false⟩).toString = "" ∧
    ((BaseModel.new.setValueString "title" "a").save
        ⟨Table.FoldersTable, "uuid", true, false⟩ ⟨"u1", 5000, true⟩ [] []).model.isNew
        ⟨Table.FoldersTable, "uuid", true, false⟩ = true := by
  decide

end BaseModel

/-! ## The schema registry and `loadSqlQuery` -/

theorem Registry.contains_eq_cached (reg : Registry) (t : Table) :
    Registry.contains reg t = (Registry.get? reg t).isSome := by
  induction reg with
  | nil => simp [Registry.contains, Registry.get?]
  | cons p rest ih =>
    obtain ⟨t1, fs1⟩ := p
    by_cases ht : t1 = t <;> simp [Registry.contains, Registry.get?, ht, ih]

theorem Registry.get?_set (reg : Registry) (t t2 : Table) (fs : List Field) :
    Registry.get? (Registry.set reg t fs) t2 = if t2 = t then some fs else Registry.get? reg t2 := by
  induction reg with
  | nil =>
    by_cases h : t2 = t
    · subst h; simp [Registry.set, Registry.get?]
    · have h2 : ¬ t = t2 := fun e => h e.symm
      simp [Registry.set, Registry.get?, h, h2]
  | cons p rest ih =>
    obtain ⟨t1, fs1⟩ := p
    by_cases ht : t1 = t
    · subst ht
      by_cases h : t2 = t1
      · subst h; simp [Registry.set, Registry.get?]
      · have h2 : ¬ t1 = t2 := fun e => h e.symm
        simp [Registry.set, Registry.get?, h, h2]
    · by_cases h1 : t1 = t2
      · subst h1
        simp [Registry.set, Registry.get?, ht]
      · simp [Registry.set, Registry.get?, ht, h1, ih]

theorem QMetaType.int_ne_qstring : ¬ QMetaType.Int = QMetaType.QString := by decide

theorem tableFields_of_cached (reg : Registry) (t : Table)
    (hc : Registry.contains reg t = true) :
    tableFields reg t = ((Registry.get? reg t).getD [], reg) := by
  simp [tableFields, hc]

theorem tableFields_of_not_cached (reg : Registry) (t : Table)
    (hc : Registry.contains reg t = false) :
    tableFields reg t = (declaredFields t, Registry.set reg t (declaredFields t)) := by
  simp [tableFields, hc]

theorem Registry.consistent_tableFields (reg : Registry) (t : Table)
    (h : Registry.Consistent reg) : Registry.Consistent (tableFields reg t).2 := by
  cases hc : Registry.contains reg t
  · rw [tableFields_of_not_cached reg t hc]
    intro t2 fs hget
    simp only [] at hget
    rw [Registry.get?_set] at hget
    by_cases h2 : t2 = t
    · subst h2
      simp only [if_true] at hget
      exact (Option.some.inj hget).symm
    · simp only [h2, if_false] at hget
      exact h t2 fs hget
  · rw [tableFields_of_cached reg t hc]
    exact h

theorem Registry.consistent_of_reachable (reg : Registry) (h : Registry.Reachable reg) :
    Registry.Consistent reg := by
  induction h with
  | empty =>
    intro t fs hget
    simp [Registry.get?] at hget
  | call reg t _ ih => exact Registry.consistent_tableFields reg t ih

theorem tableFields_fst_of_consistent (reg : Registry) (t : Table)
    (h : Registry.Consistent reg) : (tableFields reg t).1 = declaredFields t := by
  cases hc : Registry.contains reg t
  · rw [tableFields_of_not_cached reg t hc]
  · rw [tableFields_of_cached reg t hc]
    rw [Registry.contains_eq_cached] at hc
    cases hg : Registry.get? reg t with
    | none => rw [hg] at hc; cases hc
    | some fs => simp [h t fs hg]

theorem declaredFields_types (t : Table) :
    ∀ f ∈ declaredFields t, f.type = QMetaType.QString ∨ f.type = QMetaType.Int := by
  cases t <;> decide

theorem declaredFields_names_nodup (t : Table) :
    ((declaredFields t).map Field.name).Nodup := by
  cases t <;> decide

theorem loadField_get?_of_ne (query : QSqlQuery) (acc : QHash Value) (f : Field)
    (name : String) (hne : name ≠ f.name) :
    QHash.get? (loadField query acc f) name = QHash.get? acc name := by
  unfold loadField
  by_cases h1 : query.indexOf f.name < 0
  · simp [h1]
  · by_cases h2 : f.type = QMetaType.QString
    · simp [h1, h2, QHash.get?_insert_of_ne _ _ _ _ hne]
    · by_cases h3 : f.type = QMetaType.Int
      · simp [h1, h3, QMetaType.int_ne_qstring, QHash.get?_insert_of_ne _ _ _ _ hne]
      · simp [h1, h2, h3]

theorem foldl_loadField_get?_of_not_mem (query : QSqlQuery) (fs : List Field)
    (acc : QHash Value) (name : String) (hn : name ∉ fs.map Field.name) :
    QHash.get? (fs.foldl (loadField query) acc) name = QHash.get? acc name := by
  induction fs generalizing acc with
  | nil => rfl
  | cons f rest ih =>
    simp only [List.map_cons, List.mem_cons, not_or] at hn
    simp only [List.foldl_cons]
    rw [ih _ hn.2, loadField_get?_of_ne _ _ _ _ hn.1]

/-- The Value that `loadSqlQuery` stores for a field found at column `idx`. -/
theorem loadField_get?_self (query : QSqlQuery) (acc : QHash Value) (f : Field)
    (hidx : 0 ≤ query.indexOf f.name)
    (hty : f.type = QMetaType.QString ∨ f.type = QMetaType.Int) :
    QHash.get? (loadField query acc f) f.name =
      some (if f.type = QMetaType.QString
        then Value.ofString (query.valueToString (query.indexOf f.name))
        else Value.ofInt (query.valueToInt (query.indexOf f.name))) := by
  unfold loadField
  have h1 : ¬ query.indexOf f.name < 0 := by omega
  rcases hty with h2 | h3
  · simp [h1, h2, QHash.get?_insert_self]
  · simp [h1, h3, QMetaType.int_ne_qstring, QHash.get?_insert_self]

theorem loadField_get?_absent (query : QSqlQuery) (acc : QHash Value) (f : Field)
    (hidx : query.indexOf f.name < 0) :
    loadField query acc f = acc := by
  simp [loadField, hidx]

theorem foldl_loadField_get? (query : QSqlQuery) (fs : List Field)
    (hty : ∀ f ∈ fs, f.type = QMetaType.QString ∨ f.type = QMetaType.Int)
    (hnd : (fs.map Field.name).Nodup) (acc : QHash Value) (f : Field) (hf : f ∈ fs) :
    QHash.get? (fs.foldl (loadField query) acc) f.name =
      if 0 ≤ query.indexOf f.name then
        some (if f.type = QMetaType.QString
          then Value.ofString (query.valueToString (query.indexOf f.name))
          else Value.ofInt (query.valueToInt (query.indexOf f.name)))
      else QHash.get? acc f.name := by
  induction fs generalizing acc with
  | nil => cases hf
  | cons g rest ih =>
    simp only [List.map_cons, List.nodup_cons] at hnd
    simp only [List.foldl_cons]
    rcases List.mem_cons.1 hf with hfg | hfr
    · subst hfg
      rw [foldl_loadField_get?_of_not_mem _ _ _ _ hnd.1]
      by_cases hidx : 0 ≤ query.indexOf f.name
      · rw [loadField_get?_self _ _ _ hidx (hty f (List.mem_cons_self _ _))]
        simp [hidx]
      · rw [loadField_get?_absent _ _ _ (by omega)]
        simp [hidx]
    · have hne : f.name ≠ g.name := by
        intro e
        apply hnd.1
        rw [← e]
        exact List.mem_map_of_mem _ hfr
      rw [ih (fun x hx => hty x (List.mem_cons_of_mem _ hx)) hnd.2 _ hfr,
        loadField_get?_of_ne _ _ _ _ hne]

namespace BaseModel

/-- C5: for every record state, every row and every entity type, with the registry in
a state that calls of `tableFields` produce: after `loadSqlQuery(row)` the dirty set is
empty; a name is set in `values_` exactly when it is a field of the table's schema whose
column the row has (`indexOf` not negative), so a missing column skips its field only;
and each such field holds a Value whose tag is the declared type of the field, built
from the string or the int of its column. -/
theorem loadSqlQuery_loads_schema_fields (c : ModelClass) (reg : Registry)
    (hreg : Registry.Reachable reg) (m : BaseModel) (query : QSqlQuery) :
    (m.loadSqlQuery c reg query).1.changedFields = [] ∧
    (∀ name, (m.loadSqlQuery c reg query).1.valueIsSet name = true ↔
      ∃ f ∈ (tableFields reg c.table).1, f.name = name ∧ 0 ≤ query.indexOf name) ∧
    (∀ f ∈ (tableFields reg c.table).1, 0 ≤ query.indexOf f.name →
      ((m.loadSqlQuery c reg query).1.value f.name).type = f.type ∧
      (f.type = QMetaType.QString ∨ f.type = QMetaType.Int) ∧
      (f.type = QMetaType.QString → (m.loadSqlQuery c reg query).1.value f.name =
        Value.ofString (query.valueToString (query.indexOf f.name))) ∧
      (f.type = QMetaType.Int → (m.loadSqlQuery c reg query).1.value f.name =
        Value.ofInt (query.valueToInt (query.indexOf f.name)))) := by
  have hfs := tableFields_fst_of_consistent reg c.table
    (Registry.consistent_of_reachable reg hreg)
  have hty := declaredFields_types c.table
  have hnd := declaredFields_names_nodup c.table
  have hget : ∀ f ∈ declaredFields c.table, 0 ≤ query.indexOf f.name →
      (m.loadSqlQuery c reg query).1.value f.name =
        (if f.type = QMetaType.QString
          then Value.ofString (query.valueToString (query.indexOf f.name))
          else Value.ofInt (query.valueToInt (query.indexOf f.name))) := by
    intro f hf hidx
    apply value_of_get?
    simp only [loadSqlQuery, hfs]
    rw [foldl_loadField_get? query _ hty hnd [] f hf]
    simp [hidx]
  rw [hfs]
  refine ⟨by simp [loadSqlQuery, changedFields, QHash.keys], ?_, ?_⟩
  · intro name
    simp only [loadSqlQuery, valueIsSet, hfs]
    rw [QHash.contains_eq_isSome_get?]
    constructor
    · intro h
      by_cases hmem : name ∈ (declaredFields c.table).map Field.name
      · obtain ⟨f, hf, hname⟩ := List.mem_map.1 hmem
        refine ⟨f, hf, hname, ?_⟩
        subst hname
        rw [foldl_loadField_get? query _ hty hnd [] f hf] at h
        by_cases hidx : 0 ≤ query.indexOf f.name
        · exact hidx
        · simp [hidx, QHash.get?] at h
      · rw [foldl_loadField_get?_of_not_mem _ _ _ _ hmem] at h
        simp [QHash.get?] at h
    · rintro ⟨f, hf, hname, hidx⟩
      subst hname
      rw [foldl_loadField_get? query _ hty hnd [] f hf]
      simp [hidx]
  · intro f hf hidx
    have hv := hget f hf hidx
    have ht := hty f hf
    refine ⟨?_, ht, ?_, ?_⟩
    · rw [hv]
      rcases ht with h2 | h3
      · simp [h2, Value.ofString, Value.type]
      · simp [h3, QMetaType.int_ne_qstring, Value.ofInt, Value.type]
    · intro h2
      rw [hv]; simp [h2]
    · intro h3
      rw [hv]; simp [h3, QMetaType.int_ne_qstring]

/-- Witness of C5: a dirty folder record reloaded, with the empty registry, from a row
that has every column but `title`: the dirty set is empty afterwards. -/
theorem loadSqlQuery_loads_schema_fields_witness :
    ((BaseModel.new.setValueString "title" "a").loadSqlQuery
        ⟨Table.FoldersTable, "id", true, true⟩ []
        ⟨fun name => if name = "title" then -1 else 0, fun _ => "x", fun _ => 7⟩).1.changedFields
      = [] :=
  (loadSqlQuery_loads_schema_fields ⟨Table.FoldersTable, "id", true, true⟩ []
    Registry.Reachable.empty (BaseModel.new.setValueString "title" "a")
    ⟨fun name => if name = "title" then -1 else 0, fun _ => "x", fun _ => 7⟩).1

end BaseModel

/-! ## `save()`: the value map that is written -/

theorem toInt32_of_fits (x : Int) (hlo : -2147483648 ≤ x) (hhi : x < 2147483648) :
    toInt32 x = x := by
  unfold toInt32
  have h : (x + 2147483648) % 4294967296 = x + 2147483648 :=
    Int.emod_eq_of_lt (by omega) (by omega)
  omega

theorem epochSeconds_of_fits (nowMs : Int) (hlo : -2147483648 ≤ Int.tdiv nowMs 1000)
    (hhi : Int.tdiv nowMs 1000 < 2147483648) : epochSeconds nowMs = Int.tdiv nowMs 1000 :=
  toInt32_of_fits _ hlo hhi

namespace BaseModel

theorem get?_foldl_collect (m : BaseModel) (fields : List String) (acc : QMap QVariant)
    (k : String) :
    QMap.get? (fields.foldl
        (fun values field => QMap.insert values field (m.value field).toQVariant) acc) k =
      if k ∈ fields then some (m.value k).toQVariant else QMap.get? acc k := by
  induction fields generalizing acc with
  | nil => simp
  | cons x rest ih =>
    simp only [List.foldl_cons]
    rw [ih]
    by_cases hr : k ∈ rest
    · simp [hr]
    · by_cases hx : k = x
      · subst hx
        simp [hr, QMap.get?_assign_self]
      · simp [hr, hx, QMap.get?_assign_of_ne _ _ _ _ hx]

theorem get?_collectValues (m : BaseModel) (fields : List String) (k : String) :
    QMap.get? (collectValues m fields) k =
      if k ∈ fields then some (m.value k).toQVariant else none := by
  unfold collectValues
  rw [get?_foldl_collect]
  simp [QMap.get?]

theorem withUuid_of_existing (c : ModelClass) (env : SaveEnv) (values : QMap QVariant) :
    withUuid c env false values = values := by
  simp [withUuid]

theorem saveValues_of_new (c : ModelClass) (env : SaveEnv) (reg : Registry) (m : BaseModel)
    (hnew : m.isNew c = true) :
    (m.saveValues c env reg).1 =
      if (hasField reg c.table "created_time").1 = true then
        QMap.insert (withUuid c env true (collectValues m m.changedFields)) "created_time"
          (QVariant.int (epochSeconds env.nowMs))
      else withUuid c env true (collectValues m m.changedFields) := by
  simp only [saveValues, hnew]
  unfold withTimestamps
  by_cases hh : (hasField reg c.table "created_time").1 = true <;> simp [hh]

theorem saveValues_of_existing (c : ModelClass) (env : SaveEnv) (reg : Registry)
    (m : BaseModel) (hnew : m.isNew c = false) :
    (m.saveValues c env reg).1 =
      if "updated_time" ∉ m.changedFields ∧ (hasField reg c.table "updated_time").1 = true then
        QMap.insert (collectValues m m.changedFields) "updated_time"
          (QVariant.int (epochSeconds env.nowMs))
      else collectValues m m.changedFields := by
  simp only [saveValues, hnew, withUuid_of_existing]
  unfold withTimestamps
  have hc : QMap.contains (collectValues m m.changedFields) "updated_time" =
      decide ("updated_time" ∈ m.changedFields) := by
    rw [QMap.contains_eq_get?_isSome, get?_collectValues]
    by_cases h : "updated_time" ∈ m.changedFields <;> simp [h]
  by_cases hd : "updated_time" ∈ m.changedFields
  · simp [hc, hd]
  · by_cases hh : (hasField reg c.table "updated_time").1 = true <;> simp [hc, hd, hh]

theorem saveEach_nil (saveChange : Registry → QHash QVariant → BaseModel →
      Registry × QHash QVariant × List DbCall) (reg : Registry) (cache : QHash QVariant) :
    saveEach saveChange reg cache [] = (reg, cache, []) := rfl

theorem saveJournal_of_silent (c : ModelClass) (isNew output : Bool) (m : BaseModel)
    (values : QMap QVariant) (h : output = false ∨ c.trackChanges = false) :
    saveJournal c isNew output m values = [] := by
  rcases h with h | h <;> simp [saveJournal, h]

theorem save_dbCalls_of_new (c : ModelClass) (env : SaveEnv) (reg : Registry)
    (cache : QHash QVariant) (m : BaseModel) (hnew : m.isNew c = true) :
    (m.save c env reg cache).dbCalls =
      [DbCall.transaction, DbCall.execInsert (tableName c.table) (m.saveValues c env reg).1] ++
        (saveEach (saveChange env) (m.saveValues c env reg).2
          (cacheDelete cache (countKey (tableName c.table)))
          (m.save c env reg cache).journal).2.2 ++
        [DbCall.commit] := by
  unfold save saveWith
  simp [hnew]

theorem save_dbCalls_of_new_silent (c : ModelClass) (env : SaveEnv) (reg : Registry)
    (cache : QHash QVariant) (m : BaseModel) (hnew : m.isNew c = true)
    (h : env.writeOk = false ∨ c.trackChanges = false) :
    (m.save c env reg cache).dbCalls =
      [DbCall.transaction, DbCall.execInsert (tableName c.table) (m.saveValues c env reg).1,
       DbCall.commit] := by
  unfold save saveWith
  simp [hnew, saveJournal_of_silent c _ _ _ _ h, saveEach_nil]

theorem changedFields__ne_nil (m : BaseModel) (h : m.changedFields ≠ []) :
    ¬ QHash.size m.changedFields_ = 0 := by
  intro h0
  apply h
  cases hcf : m.changedFields_ with
  | nil => simp [changedFields, hcf, QHash.keys]
  | cons p rest => rw [hcf] at h0; simp [QHash.size] at h0

theorem save_dbCalls_of_existing (c : ModelClass) (env : SaveEnv) (reg : Registry)
    (cache : QHash QVariant) (m : BaseModel) (hnew : m.isNew c = false)
    (hdirty : m.changedFields ≠ []) :
    (m.save c env reg cache).dbCalls =
      [DbCall.transaction,
       DbCall.execUpdate (tableName c.table) (m.saveValues c env reg).1
         (updatePredicate c.primaryKey (m.value "id").toString)] ++
        (saveEach (saveChange env) (m.saveValues c env reg).2 cache
          (m.save c env reg cache).journal).2.2 ++
        [DbCall.commit] := by
  unfold save saveWith
  simp [hnew, changedFields__ne_nil m hdirty, value, valueIsSet]

theorem save_dbCalls_of_existing_silent (c : ModelClass) (env : SaveEnv) (reg : Registry)
    (cache : QHash QVariant) (m : BaseModel) (hnew : m.isNew c = false)
    (hdirty : m.changedFields ≠ []) (h : env.writeOk = false ∨ c.trackChanges = false) :
    (m.save c env reg cache).dbCalls =
      [DbCall.transaction,
       DbCall.execUpdate (tableName c.table) (m.saveValues c env reg).1
         (updatePredicate c.primaryKey (m.value "id").toString),
       DbCall.commit] := by
  unfold save saveWith
  simp [hnew, changedFields__ne_nil m hdirty, value, valueIsSet,
    saveJournal_of_silent c _ _ _ _ h, saveEach_nil]

/-- C8, at a clock reading past the range of a 32-bit `int`: a new folder record (the
folders table declares `created_time`) is saved when the clock reads 2147483648000 ms.
The clock milliseconds divided by 1000 are 2147483648, but the map handed to the INSERT
carries `created_time` = -2147483648, the quotient wrapped by the cast to `int`. -/
theorem save_created_time_wraps :
    Int.tdiv 2147483648000 1000 = 2147483648 ∧
    ((BaseModel.new.setValueString "title" "a").save ⟨Table.FoldersTable, "id", true, false⟩
        ⟨"u1", 2147483648000, true⟩ [] []).dbCalls =
      [DbCall.transaction,
       DbCall.execInsert "folders"
         [("created_time", QVariant.int (-2147483648)), ("id", QVariant.string "u1"),
          ("title", QVariant.string "a")],
       DbCall.commit] ∧
    QMap.get? ((BaseModel.new.setValueString "title" "a").saveValues
        ⟨Table.FoldersTable, "id", true, false⟩ ⟨"u1", 2147483648000, true⟩ []).1
        "created_time" ≠ some (QVariant.int (Int.tdiv 2147483648000 1000)) := by
  decide

/-- C8 as amended: for every new record, the INSERT that `save()` issues, its second
call on the database after the opening of the transaction, carries the value map
`saveValues`; the calls that follow are those of the nested `change.save()` calls and
the commit, and when the write fails or the entity type tracks no changes the calls are
the transaction, that INSERT and the commit alone.  When the table declares
`created_time`, the map carries `created_time` = `(int)(clock ms / 1000)`, whatever the
caller had set before; this is the clock milliseconds divided by 1000 whenever that
quotient fits a 32-bit `int`.  When the table does not declare `created_time`, no stamp
is added: the map is the dirty fields plus the generated key of a UUID-keyed type, so
that, unless that key is itself named `created_time`, the map holds `created_time` only
as the caller's own dirty value. -/
theorem save_new_stamps_created_time (c : ModelClass) (env : SaveEnv) (reg : Registry)
    (cache : QHash QVariant) (m : BaseModel) (hnew : m.isNew c = true) :
    (m.save c env reg cache).dbCalls =
      [DbCall.transaction, DbCall.execInsert (tableName c.table) (m.saveValues c env reg).1] ++
        (saveEach (saveChange env) (m.saveValues c env reg).2
          (cacheDelete cache (countKey (tableName c.table)))
          (m.save c env reg cache).journal).2.2 ++
        [DbCall.commit] ∧
    (env.writeOk = false ∨ c.trackChanges = false →
      (m.save c env reg cache).dbCalls =
        [DbCall.transaction, DbCall.execInsert (tableName c.table) (m.saveValues c env reg).1,
         DbCall.commit]) ∧
    ((hasField reg c.table "created_time").1 = true →
      QMap.get? (m.saveValues c env reg).1 "created_time" =
        some (QVariant.int (epochSeconds env.nowMs))) ∧
    (-2147483648 ≤ Int.tdiv env.nowMs 1000 → Int.tdiv env.nowMs 1000 < 2147483648 →
      epochSeconds env.nowMs = Int.tdiv env.nowMs 1000) ∧
    ((hasField reg c.table "created_time").1 = false →
      (m.saveValues c env reg).1 = withUuid c env true (collectValues m m.changedFields) ∧
      (c.primaryKey ≠ "created_time" ∨ c.primaryKeyIsUuid = false →
        QMap.get? (m.saveValues c env reg).1 "created_time" =
          if "created_time" ∈ m.changedFields
          then some (m.value "created_time").toQVariant else none)) := by
  refine ⟨save_dbCalls_of_new c env reg cache m hnew,
    save_dbCalls_of_new_silent c env reg cache m hnew, ?_, epochSeconds_of_fits env.nowMs, ?_⟩
  · intro hh
    rw [saveValues_of_new c env reg m hnew]
    simp [hh, QMap.get?_assign_self]
  · intro hh
    have hv : (m.saveValues c env reg).1 =
        withUuid c env true (collectValues m m.changedFields) := by
      rw [saveValues_of_new c env reg m hnew]
      simp [hh]
    refine ⟨hv, ?_⟩
    intro hpk
    rw [hv]
    unfold withUuid
    rcases hpk with hpk | hpk
    · by_cases hu : c.primaryKeyIsUuid = true
      · simp only [hu, Bool.and_self, if_true]
        rw [QMap.get?_assign_of_ne _ _ _ _ (Ne.symm hpk), get?_collectValues]
      · simp only [hu, Bool.and_false, Bool.false_eq_true, if_false, get?_collectValues]
    · simp only [hpk, Bool.and_false, Bool.false_eq_true, if_false, get?_collectValues]

/-- Witness of C8 as amended: a new folder record whose caller had set `created_time` to
5, saved at clock 1700000000123 ms with the registry empty: the INSERT carries
`created_time` = 1700000000. -/
theorem save_new_stamps_created_time_witness :
    QMap.get? (((BaseModel.new.setValueString "title" "a").setValueInt "created_time"
        5).saveValues ⟨Table.FoldersTable, "id", true, false⟩ ⟨"u1", 1700000000123, true⟩ []).1
        "created_time" = some (QVariant.int (epochSeconds 1700000000123)) ∧
    epochSeconds 1700000000123 = 1700000000 :=
  have h := save_new_stamps_created_time ⟨Table.FoldersTable, "id", true, false⟩
    ⟨"u1", 1700000000123, true⟩ [] []
    ((BaseModel.new.setValueString "title" "a").setValueInt "created_time" 5) (by decide)
  ⟨h.2.2.1 (by decide), by decide⟩

end BaseModel

namespace BaseModel

/-- C9, at a clock reading past the range of a 32-bit `int`: an existing folder record
whose `title` is dirty is saved when the clock reads 2147483648000 ms.  The clock
milliseconds divided by 1000 are 2147483648, but the map written by the UPDATE carries
`updated_time` = -2147483648, the quotient wrapped by the cast to `int`. -/
theorem save_updated_time_wraps :
    Int.tdiv 2147483648000 1000 = 2147483648 ∧
    ((⟨[("id", Value.ofString "u1")], []⟩ : BaseModel).setValueString "title" "a").isNew
        ⟨Table.FoldersTable, "id", true, false⟩ = false ∧
    (((⟨[("id", Value.ofString "u1")], []⟩ : BaseModel).setValueString "title" "a").save
        ⟨Table.FoldersTable, "id", true, false⟩ ⟨"u2", 2147483648000, true⟩ [] []).dbCalls =
      [DbCall.transaction,
       DbCall.execUpdate "folders"
         [("title", QVariant.string "a"), ("updated_time", QVariant.int (-2147483648))]
         "id = 'u1'",
       DbCall.commit] ∧
    QMap.get? (((⟨[("id", Value.ofString "u1")], []⟩ : BaseModel).setValueString "title"
        "a").saveValues ⟨Table.FoldersTable, "id", true, false⟩ ⟨"u2", 2147483648000, true⟩
        []).1 "updated_time" ≠ some (QVariant.int (Int.tdiv 2147483648000 1000)) := by
  decide

/-- C9 as amended: for every record that is not new and has a dirty field, the UPDATE
that `save()` issues, its second call on the database after the opening of the
transaction, carries the value map `saveValues`; the calls that follow are those of the
nested `change.save()` calls and the commit, and when the write fails or the entity type
tracks no changes the calls are the transaction, that UPDATE and the commit alone.  When
the table declares `updated_time` and `updated_time` is not dirty, the map carries
`updated_time` = `(int)(clock ms / 1000)`, which is the clock milliseconds divided by
1000 whenever that quotient fits a 32-bit `int`.  When `updated_time` is dirty, the map
carries the record's own `updated_time` value, in its variant form.  When the table does
not declare `updated_time` and it is not dirty, the map has no `updated_time`. -/
theorem save_existing_stamps_updated_time (c : ModelClass) (env : SaveEnv) (reg : Registry)
    (cache : QHash QVariant) (m : BaseModel) (hnew : m.isNew c = false)
    (hdirty : m.changedFields ≠ []) :
    (m.save c env reg cache).dbCalls =
      [DbCall.transaction,
       DbCall.execUpdate (tableName c.table) (m.saveValues c env reg).1
         (updatePredicate c.primaryKey (m.value "id").toString)] ++
        (saveEach (saveChange env) (m.saveValues c env reg).2 cache
          (m.save c env reg cache).journal).2.2 ++
        [DbCall.commit] ∧
    (env.writeOk = false ∨ c.trackChanges = false →
      (m.save c env reg cache).dbCalls =
        [DbCall.transaction,
         DbCall.execUpdate (tableName c.table) (m.saveValues c env reg).1
           (updatePredicate c.primaryKey (m.value "id").toString),
         DbCall.commit]) ∧
    ((hasField reg c.table "updated_time").1 = true → "updated_time" ∉ m.changedFields →
      QMap.get? (m.saveValues c env reg).1 "updated_time" =
        some (QVariant.int (epochSeconds env.nowMs))) ∧
    (-2147483648 ≤ Int.tdiv env.nowMs 1000 → Int.tdiv env.nowMs 1000 < 2147483648 →
      epochSeconds env.nowMs = Int.tdiv env.nowMs 1000) ∧
    ("updated_time" ∈ m.changedFields →
      QMap.get? (m.saveValues c env reg).1 "updated_time" =
        some (m.value "updated_time").toQVariant) ∧
    ((hasField reg c.table "updated_time").1 = false → "updated_time" ∉ m.changedFields →
      QMap.get? (m.saveValues c env reg).1 "updated_time" = none) := by
  refine ⟨save_dbCalls_of_existing c env reg cache m hnew hdirty,
    save_dbCalls_of_existing_silent c env reg cache m hnew hdirty, ?_,
    epochSeconds_of_fits env.nowMs, ?_, ?_⟩
  · intro hh hd
    rw [saveValues_of_existing c env reg m hnew]
    simp [hh, hd, QMap.get?_assign_self]
  · intro hd
    rw [saveValues_of_existing c env reg m hnew]
    simp [hd, get?_collectValues]
  · intro hh hd
    rw [saveValues_of_existing c env reg m hnew]
    simp [hh, hd, get?_collectValues]

/-- Witness of C9 as amended: an existing folder record whose `title` is dirty, saved
at clock 1700000000123 ms with the registry empty: the UPDATE carries `updated_time` =
1700000000. -/
theorem save_existing_stamps_updated_time_witness :
    QMap.get? (((⟨[("id", Value.ofString "u1")], []⟩ : BaseModel).setValueString "title"
        "a").saveValues ⟨Table.FoldersTable, "id", true, false⟩ ⟨"u2", 1700000000123, true⟩
        []).1 "updated_time" = some (QVariant.int (epochSeconds 1700000000123)) ∧
    epochSeconds 1700000000123 = 1700000000 :=
  have h := save_existing_stamps_updated_time ⟨Table.FoldersTable, "id", true, false⟩
    ⟨"u2", 1700000000123, true⟩ [] []
    ((⟨[("id", Value.ofString "u1")], []⟩ : BaseModel).setValueString "title" "a")
    (by decide) (by decide)
  ⟨h.2.2.1 (by decide) (by decide), by decide⟩

end BaseModel

namespace BaseModel

end BaseModel

/-! ## The change journal of a create and of a delete -/

namespace BaseModel

end BaseModel

/-! ## `dispose()` and the cached row count -/

theorem QHash.contains_remove_self {V : Type} (h : QHash V) (k : String) :
    QHash.contains (QHash.remove h k) k = false := by
  induction h with
  | nil => simp [QHash.remove, QHash.contains]
  | cons p rest ih =>
    obtain ⟨k1, v1⟩ := p
    by_cases hk : k1 = k <;> simp [QHash.remove, QHash.contains, hk, ih]

theorem QHash.contains_remove_of_absent {V : Type} (h : QHash V) (k k2 : String)
    (habs : QHash.contains h k = false) : QHash.contains (QHash.remove h k2) k = false := by
  induction h with
  | nil => simp [QHash.remove, QHash.contains]
  | cons p rest ih =>
    obtain ⟨k1, v1⟩ := p
    by_cases hk : k1 = k
    · simp [QHash.contains, hk] at habs
    · have hrest : QHash.contains rest k = false := by
        simpa [QHash.contains, hk] using habs
      by_cases hk2 : k1 = k2
      · simpa [QHash.remove, hk2] using ih hrest
      · simp [QHash.remove, QHash.contains, hk, hk2, ih hrest]

theorem saveWith_cache_of_untracked (saveChange : Registry → QHash QVariant → BaseModel →
      Registry × QHash QVariant × List DbCall) (c : ModelClass)
    (hc : c.trackChanges = false) (env : SaveEnv) (reg : Registry)
    (cache : QHash QVariant) (m : BaseModel) :
    (BaseModel.saveWith saveChange c env reg cache m).cache_ = cache ∨
    (BaseModel.saveWith saveChange c env reg cache m).cache_ =
      cacheDelete cache (countKey (tableName c.table)) := by
  unfold BaseModel.saveWith
  by_cases hn : BaseModel.isNew c m = true
  · right
    simp [hn, BaseModel.saveJournal, hc, BaseModel.saveEach]
  · left
    have hn2 : BaseModel.isNew c m = false := by simpa using hn
    by_cases hs : QHash.size m.changedFields_ = 0
    · simp [hs, hn2]
    · simp [hs, hn2, BaseModel.saveJournal, hc, BaseModel.saveEach]

theorem saveChange_cache (env : SaveEnv) (reg : Registry) (cache : QHash QVariant)
    (change : BaseModel) :
    (BaseModel.saveChange env reg cache change).2.1 = cache ∨
    (BaseModel.saveChange env reg cache change).2.1 =
      cacheDelete cache (countKey (tableName Table.ChangesTable)) :=
  saveWith_cache_of_untracked _ ModelClass.change rfl env reg cache change

theorem saveChange_keeps_absent (env : SaveEnv) (reg : Registry) (cache : QHash QVariant)
    (change : BaseModel) (k : String) (habs : QHash.contains cache k = false) :
    QHash.contains (BaseModel.saveChange env reg cache change).2.1 k = false := by
  rcases saveChange_cache env reg cache change with h | h
  · rw [h]; exact habs
  · rw [h]; exact QHash.contains_remove_of_absent _ _ _ habs

theorem saveEach_keeps_absent (env : SaveEnv) (changes : List BaseModel) (k : String)
    (acc : Registry × QHash QVariant × List DbCall)
    (habs : QHash.contains acc.2.1 k = false) :
    QHash.contains (changes.foldl
      (fun acc change =>
        ((BaseModel.saveChange env acc.1 acc.2.1 change).1,
         (BaseModel.saveChange env acc.1 acc.2.1 change).2.1,
         acc.2.2 ++ (BaseModel.saveChange env acc.1 acc.2.1 change).2.2)) acc).2.1 k = false := by
  induction changes generalizing acc with
  | nil => exact habs
  | cons change rest ih =>
    simp only [List.foldl_cons]
    exact ih _ (saveChange_keeps_absent env acc.1 acc.2.1 change k habs)

theorem saveEach_cache_keeps_absent (env : SaveEnv) (reg : Registry) (cache : QHash QVariant)
    (changes : List BaseModel) (k : String) (habs : QHash.contains cache k = false) :
    QHash.contains (BaseModel.saveEach (BaseModel.saveChange env) reg cache changes).2.1 k
      = false :=
  saveEach_keeps_absent env changes k (reg, cache, []) habs

theorem count_of_not_cached (convert : QVariant → Int) (cache : QHash QVariant)
    (table : Table) (rowCount : Int)
    (h : QHash.contains cache (countKey (tableName table)) = false) :
    count convert cache table rowCount =
      { output := rowCount,
        cache_ := cacheSet cache (countKey (tableName table)) (QVariant.int rowCount),
        queries := ["SELECT count(*) AS row_count FROM " ++ tableName table] } := by
  simp [count, cacheGet, h, QVariant.isValid, QVariant.type]

namespace BaseModel

/-- C12: for every entity type, record and cache state.  When the DELETE succeeds,
`dispose()` returns true and the cache has no entry under the count key of the table; the
next `count(table)` then executes the count query, returns what the database answers,
whatever was cached before, and caches that answer.  When the DELETE fails, `dispose()`
returns false and the cache is unchanged. -/
theorem dispose_invalidates_count (c : ModelClass) (env : SaveEnv) (reg : Registry)
    (cache : QHash QVariant) (m : BaseModel) (convert : QVariant → Int) (rowCount : Int) :
    (env.writeOk = true →
      (m.dispose c env reg cache).output = true ∧
      QHash.contains (m.dispose c env reg cache).cache_ (countKey (tableName c.table)) = false ∧
      cacheGet (m.dispose c env reg cache).cache_ (countKey (tableName c.table)) = QVariant.null ∧
      (count convert (m.dispose c env reg cache).cache_ c.table rowCount).output = rowCount ∧
      (count convert (m.dispose c env reg cache).cache_ c.table rowCount).queries =
        ["SELECT count(*) AS row_count FROM " ++ tableName c.table] ∧
      cacheGet (count convert (m.dispose c env reg cache).cache_ c.table rowCount).cache_
        (countKey (tableName c.table)) = QVariant.int rowCount) ∧
    (env.writeOk = false →
      (m.dispose c env reg cache).output = false ∧
      (m.dispose c env reg cache).cache_ = cache) := by
  constructor
  · intro hok
    have hnot : QHash.contains (m.dispose c env reg cache).cache_
        (countKey (tableName c.table)) = false := by
      have hshape : (m.dispose c env reg cache).cache_ =
          (saveEach (saveChange env) reg (cacheDelete cache (countKey (tableName c.table)))
            (if c.trackChanges = true
              then [changeRecord (m.id c) c.table ChangeType.Delete none] else [])).2.1 := by
        simp [dispose, hok]
      rw [hshape]
      exact saveEach_cache_keeps_absent env reg _ _ _ (QHash.contains_remove_self _ _)
    refine ⟨by simp [dispose, hok], hnot, by simp [cacheGet, hnot], ?_, ?_, ?_⟩
    · rw [count_of_not_cached convert _ c.table rowCount hnot]
    · rw [count_of_not_cached convert _ c.table rowCount hnot]
    · rw [count_of_not_cached convert _ c.table rowCount hnot]
      simp [cacheGet, cacheSet, QHash.contains_insert_self, QHash.get?_insert_self]
  · intro hfail
    simp [dispose, hfail, saveEach]

/-- Witness of C12: the count 3 is cached for the folders table; a folder record is
disposed with a successful DELETE; the next `count` returns the fresh answer 2. -/
theorem dispose_invalidates_count_witness :
    (count (fun _ => 0) ((⟨[("id", Value.ofString "u1")], []⟩ : BaseModel).dispose
        ⟨Table.FoldersTable, "id", true, true⟩ ⟨"u2", 5000, true⟩ []
        [("folders:count", QVariant.int 3)]).cache_ Table.FoldersTable 2).output = 2 :=
  ((dispose_invalidates_count ⟨Table.FoldersTable, "id", true, true⟩ ⟨"u2", 5000, true⟩ []
    [("folders:count", QVariant.int 3)] ⟨[("id", Value.ofString "u1")], []⟩ (fun _ => 0) 2).1
    (by decide)).2.2.2.1

/-- C13: for every record that is new or has dirty fields, when the INSERT or UPDATE
reports an error `save()` returns false, `changedFields()` is empty afterwards and
`values_` is unchanged; and for every record, `save()` returns true exactly when it was
the no-op (not new, no dirty field) or the write reported success. -/
theorem save_failure_consumes_dirty_set (c : ModelClass) (env : SaveEnv) (reg : Registry)
    (cache : QHash QVariant) (m : BaseModel)
    (hwork : m.isNew c = true ∨ m.changedFields ≠ []) (hfail : env.writeOk = false) :
    (m.save c env reg cache).output = false ∧
    (m.save c env reg cache).model.changedFields = [] ∧
    (m.save c env reg cache).model.values_ = m.values_ ∧
    (∀ (env2 : SaveEnv) (r : BaseModel), (r.save c env2 reg cache).output = true ↔
      ((r.isNew c = false ∧ r.changedFields = []) ∨ env2.writeOk = true)) := by
  have hshape : (m.save c env reg cache).output = false ∧
      (m.save c env reg cache).model = { values_ := m.values_, changedFields_ := [] } := by
    by_cases hn : m.isNew c = true
    · unfold save saveWith
      simp [hn, hfail]
    · have hn2 : m.isNew c = false := by simpa using hn
      have h0 : ¬ QHash.size m.changedFields_ = 0 := by
        rcases hwork with h | h
        · rw [hn2] at h; cases h
        · exact changedFields__ne_nil m h
      unfold save saveWith
      simp [hn2, h0, hfail]
  refine ⟨hshape.1, ?_, ?_, ?_⟩
  · rw [hshape.2]
    simp [changedFields, QHash.keys]
  · rw [hshape.2]
  · intro env2 r
    by_cases hd : r.changedFields = []
    · have h0 : QHash.size r.changedFields_ = 0 := by
        cases hcf : r.changedFields_ with
        | nil => rfl
        | cons p rest => rw [changedFields, hcf] at hd; simp [QHash.keys] at hd
      unfold save saveWith
      by_cases hn : r.isNew c = true <;> simp [h0, hn, hd]
    · have h0 := changedFields__ne_nil r hd
      unfold save saveWith
      by_cases hn : r.isNew c = true <;> simp [h0, hn, hd]

/-- Witness of C13: an existing folder record whose `title` is dirty, saved with a
failing UPDATE: `save()` returns false and the dirty set is empty afterwards. -/
theorem save_failure_consumes_dirty_set_witness :
    (((⟨[("id", Value.ofString "u1")], []⟩ : BaseModel).setValueString "title" "a").save
        ⟨Table.FoldersTable, "id", true, true⟩ ⟨"u2", 5000, false⟩ [] []).output = false ∧
    (((⟨[("id", Value.ofString "u1")], []⟩ : BaseModel).setValueString "title" "a").save
        ⟨Table.FoldersTable, "id", true, true⟩ ⟨"u2", 5000, false⟩ [] []).model.changedFields
      = [] :=
  have h := save_failure_consumes_dirty_set ⟨Table.FoldersTable, "id", true, true⟩
    ⟨"u2", 5000, false⟩ [] []
    ((⟨[("id", Value.ofString "u1")], []⟩ : BaseModel).setValueString "title" "a")
    (Or.inr (by decide)) (by decide)
  ⟨h.1, h.2.1⟩

end BaseModel

/-! ## `Value`: equality, validity and the variant round trip -/

namespace Value

theorem isEqual_of_string (a b : Value) (ha : a.type = QMetaType.QString)
    (hb : b.type = QMetaType.QString) :
    a.isEqual b = decide (a.toString = b.toString) := by
  simp [isEqual, ha, hb]

theorem isEqual_of_int (a b : Value) (ha : a.type = QMetaType.Int)
    (hb : b.type = QMetaType.Int) :
    a.isEqual b = decide (a.toInt = b.toInt) := by
  simp [isEqual, ha, hb, QMetaType.int_ne_qstring]

theorem isEqual_of_other (a b : Value) (h1 : b.type ≠ QMetaType.QString)
    (h2 : b.type ≠ QMetaType.Int) : a.isEqual b = false := by
  simp [isEqual, h1, h2]

theorem isEqual_symm (a b : Value) : a.isEqual b = b.isEqual a := by
  by_cases hab : a.type = b.type
  · by_cases h1 : b.type = QMetaType.QString
    · rw [isEqual_of_string a b (hab.trans h1) h1, isEqual_of_string b a h1 (hab.trans h1)]
      exact decide_eq_decide.2 eq_comm
    · by_cases h2 : b.type = QMetaType.Int
      · rw [isEqual_of_int a b (hab.trans h2) h2, isEqual_of_int b a h2 (hab.trans h2)]
        exact decide_eq_decide.2 eq_comm
      · rw [isEqual_of_other a b h1 h2, isEqual_of_other b a (hab ▸ h1) (hab ▸ h2)]
  · have hba : ¬ b.type = a.type := fun e => hab e.symm
    simp [isEqual, hab, hba]

theorem isEqual_iff (a b : Value) :
    a.isEqual b = true ↔
      a.type = b.type ∧
        ((b.type = QMetaType.QString ∧ a.toString = b.toString) ∨
         (b.type = QMetaType.Int ∧ a.toInt = b.toInt)) := by
  by_cases hab : a.type = b.type
  · by_cases h1 : b.type = QMetaType.QString
    · rw [isEqual_of_string a b (hab.trans h1) h1]
      have hne : ¬ QMetaType.QString = QMetaType.Int := by decide
      simp [hab, h1, hne]
    · by_cases h2 : b.type = QMetaType.Int
      · rw [isEqual_of_int a b (hab.trans h2) h2]
        simp [hab, h2, QMetaType.int_ne_qstring]
      · rw [isEqual_of_other a b h1 h2]
        simp [h1, h2]
  · simp [isEqual, hab]

/-- C14: two Values with different tags are not `isEqual`, in either direction and
whatever their payloads; the integer Value 5 and the string Value `5` are not equal. -/
theorem isEqual_false_of_tags_differ (a b : Value) (h : a.type ≠ b.type) :
    a.isEqual b = false ∧ b.isEqual a = false ∧
    (ofInt 5).isEqual (ofString "5") = false ∧
    (ofString "5").isEqual (ofInt 5) = false := by
  have hba : ¬ b.type = a.type := fun e => h e.symm
  refine ⟨by simp [isEqual, h], by simp [isEqual, hba], by decide, by decide⟩

/-- Witness of C14: a string Value and an int Value that carry the same members
otherwise. -/
theorem isEqual_false_of_tags_differ_witness :
    (⟨QMetaType.QString, "5", 5⟩ : Value).isEqual ⟨QMetaType.Int, "5", 5⟩ = false :=
  (isEqual_false_of_tags_differ ⟨QMetaType.QString, "5", 5⟩ ⟨QMetaType.Int, "5", 5⟩
    (by decide)).1

/-- C15, evaluated on the invalid Value: the Value built from the null variant has the
same tag and the same payload as itself, yet `isEqual` answers false, through the
branch that the code logs as unreachable (lines 360-361); the same holds for the
default-constructed Value.  So `isEqual` is not reflexive on a Value that is neither a
string nor an int. -/
theorem isEqual_invalid_not_reflexive :
    (ofQVariant QVariant.null).type = (ofQVariant QVariant.null).type ∧
    (ofQVariant QVariant.null).isEqual (ofQVariant QVariant.null) = false ∧
    Value.default.isEqual Value.default = false ∧
    (ofQVariant (QVariant.bool true)).isEqual (ofQVariant (QVariant.bool true)) = false := by
  decide

/-- C16, evaluated on a boolean variant: the Value built from the variant `true` takes
the tag of `bool`, which is positive, so `isValid()` answers true although the runtime
type is neither string nor int; the same holds for a floating-point variant.  Only the
null variant gives an invalid Value. -/
theorem ofQVariant_bool_is_valid :
    (ofQVariant (QVariant.bool true)).isValid = true ∧
    (ofQVariant (QVariant.bool true)).type = QMetaType.Bool ∧
    (ofQVariant (QVariant.double 0)).isValid = true ∧
    (ofQVariant QVariant.null).isValid = false := by
  decide

/-- C17: for every Value `v` whose tag is string or int, the Value built from
`v.toQVariant()` has the tag and the payload of `v` and is `isEqual` to `v`, in both
directions; `Value(s).toQVariant()` is the string variant `s` and
`Value(i).toQVariant()` is the int variant `i`; and a Value whose tag is neither string
nor int maps to the null variant. -/
theorem toQVariant_round_trip (v : Value)
    (h : v.type = QMetaType.QString ∨ v.type = QMetaType.Int) :
    (ofQVariant v.toQVariant).isEqual v = true ∧
    v.isEqual (ofQVariant v.toQVariant) = true ∧
    (ofQVariant v.toQVariant).type = v.type ∧
    (v.type = QMetaType.QString → (ofQVariant v.toQVariant).toString = v.toString) ∧
    (v.type = QMetaType.Int → (ofQVariant v.toQVariant).toInt = v.toInt) ∧
    (∀ s : String, (ofString s).toQVariant = QVariant.string s) ∧
    (∀ i : Int, (ofInt i).toQVariant = QVariant.int i) ∧
    (∀ s : String, ofQVariant (ofString s).toQVariant = ofString s) ∧
    (∀ i : Int, ofQVariant (ofInt i).toQVariant = ofInt i) ∧
    (∀ w : Value, w.type ≠ QMetaType.QString → w.type ≠ QMetaType.Int →
      w.toQVariant = QVariant.null) := by
  have hback : (ofQVariant v.toQVariant).isEqual v = true ∧
      (ofQVariant v.toQVariant).type = v.type ∧
      (v.type = QMetaType.QString → (ofQVariant v.toQVariant).toString = v.toString) ∧
      (v.type = QMetaType.Int → (ofQVariant v.toQVariant).toInt = v.toInt) := by
    rcases h with h | h
    · have hne : ¬ QMetaType.QString = QMetaType.Int := by decide
      simp [toQVariant, h, ofQVariant, isEqual, type, toString, QMetaType.int_ne_qstring,
        show v.type_ = QMetaType.QString from h, hne]
    · have h2 : v.type_ = QMetaType.Int := h
      have h3 : ¬ v.type_ = QMetaType.QString := by rw [h2]; exact QMetaType.int_ne_qstring
      simp [toQVariant, ofQVariant, isEqual, type, toInt, QMetaType.int_ne_qstring, h2]
  refine ⟨hback.1, ?_, hback.2.1, hback.2.2.1, hback.2.2.2, ?_, ?_, ?_, ?_, ?_⟩
  · rw [isEqual_symm]; exact hback.1
  · intro s; simp [toQVariant, ofString, type, toString]
  · intro i; simp [toQVariant, ofInt, type, toInt, QMetaType.int_ne_qstring]
  · intro s; simp [toQVariant, ofString, type, toString, ofQVariant]
  · intro i; simp [toQVariant, ofInt, type, toInt, QMetaType.int_ne_qstring, ofQVariant]
  · intro w h1 h2
    simp [toQVariant, h1, h2]

/-- Witness of C17: the string Value `abc` survives the round trip. -/
theorem toQVariant_round_trip_witness :
    (ofQVariant (ofString "abc").toQVariant).isEqual (ofString "abc") = true :=
  (toQVariant_round_trip (ofString "abc") (Or.inl (by decide))).1

end Value

/-! ## The schema registry -/

theorem Registry.reachable_tableFields (reg : Registry) (t : Table)
    (h : Registry.Reachable reg) : Registry.Reachable (tableFields reg t).2 :=
  Registry.Reachable.call reg t h

theorem declaredFields_of_undeclared (t : Table) (h1 : t ≠ Table.FoldersTable)
    (h2 : t ≠ Table.ChangesTable) : declaredFields t = [] := by
  simp [declaredFields, h1, h2]

/-- C18: in every registry state that calls of `tableFields` produce from the empty
registry, `tableFields(t)` returns the declared field list of `t` and leaves the registry
in such a state again, so the first call and every later call return the same ordered
list.  The list is empty for every table other than Folders and Changes, the Undefined
sentinel and the Notes table included; on such a table `hasField` and `isValidFieldName`
answer false for every name, and on every table and name the two give the same answer. -/
theorem tableFields_is_declared_schema (reg : Registry) (h : Registry.Reachable reg)
    (t : Table) (name : String) :
    (tableFields reg t).1 = declaredFields t ∧
    Registry.Reachable (tableFields reg t).2 ∧
    (tableFields (tableFields reg t).2 t).1 = (tableFields reg t).1 ∧
    (∀ t2 : Table, (tableFields (tableFields reg t).2 t2).1 = declaredFields t2) ∧
    declaredFields Table.UndefinedTable = [] ∧
    declaredFields Table.NotesTable = [] ∧
    (t ≠ Table.FoldersTable → t ≠ Table.ChangesTable →
      (tableFields reg t).1 = [] ∧
      (hasField reg t name).1 = false ∧ (isValidFieldName reg t name).1 = false) ∧
    (hasField reg t name).1 = (isValidFieldName reg t name).1 ∧
    (hasField reg t name).1 = anyFieldNamed (declaredFields t) name := by
  have hc := Registry.consistent_of_reachable reg h
  have h1 := tableFields_fst_of_consistent reg t hc
  have hr := Registry.reachable_tableFields reg t h
  have hc2 := Registry.consistent_of_reachable _ hr
  refine ⟨h1, hr, ?_, ?_, by decide, by decide, ?_, rfl, ?_⟩
  · rw [tableFields_fst_of_consistent _ t hc2, h1]
  · intro t2
    exact tableFields_fst_of_consistent _ t2 hc2
  · intro hf hch
    have hd := declaredFields_of_undeclared t hf hch
    refine ⟨by rw [h1, hd], ?_, ?_⟩
    · simp [hasField, h1, hd, anyFieldNamed]
    · simp [isValidFieldName, h1, hd, anyFieldNamed]
  · simp [hasField, h1]

/-- Witness of C18: after the schema of the folders table was cached, the Notes table
still has the empty schema, and the folders table its four declared fields. -/
theorem tableFields_is_declared_schema_witness :
    (tableFields (tableFields [] Table.FoldersTable).2 Table.NotesTable).1 = [] ∧
    (tableFields (tableFields [] Table.FoldersTable).2 Table.FoldersTable).1 =
      [createField "id" QMetaType.QString, createField "title" QMetaType.QString,
       createField "created_time" QMetaType.Int, createField "updated_time" QMetaType.Int] :=
  ⟨(tableFields_is_declared_schema (tableFields [] Table.FoldersTable).2
      (Registry.Reachable.call [] Table.FoldersTable Registry.Reachable.empty)
      Table.NotesTable "title").1.trans (by decide),
   (tableFields_is_declared_schema (tableFields [] Table.FoldersTable).2
      (Registry.Reachable.call [] Table.FoldersTable Registry.Reachable.empty)
      Table.FoldersTable "title").1.trans (by decide)⟩

namespace BaseModel

/-- C19, evaluated on an integer-keyed record: a record of the changes table that holds
the integer id 5 and has the dirty field `type` is saved.  The predicate of the UPDATE is
`id = ''`, not `id = '5'`: line 93 takes `toString()` of the id, which is the string
member of the Value and is empty for an int Value.  With the key named `uuid` and the
value `u1` stored under it, the predicate is `uuid = ''`: the same line reads the
value under the literal name `id`, not under `primaryKey()`. -/
theorem save_update_predicate_misses_id :
    ((⟨[("id", Value.ofInt 5)], []⟩ : BaseModel).setValueInt "type" 2).isNew
        ⟨Table.ChangesTable, "id", false, false⟩ = false ∧
    (((⟨[("id", Value.ofInt 5)], []⟩ : BaseModel).setValueInt "type" 2).save
        ⟨Table.ChangesTable, "id", false, false⟩ ⟨"u2", 5000, true⟩ [] []).dbCalls =
      [DbCall.transaction,
       DbCall.execUpdate "changes" [("type", QVariant.int 2)] "id = ''",
       DbCall.commit] ∧
    (((⟨[("uuid", Value.ofString "u1")], []⟩ : BaseModel).setValueString "title" "a").save
        ⟨Table.NotesTable, "uuid", true, false⟩ ⟨"u2", 5000, true⟩ [] []).dbCalls =
      [DbCall.transaction,
       DbCall.execUpdate "notes" [("title", QVariant.string "a")] "uuid = ''",
       DbCall.commit] := by
  decide

theorem save_model_values (c : ModelClass) (env : SaveEnv) (reg : Registry)
    (cache : QHash QVariant) (m : BaseModel) :
    (m.save c env reg cache).model.values_ = m.values_ ∨
    ∃ v : Value, (m.save c env reg cache).model.values_ = QHash.insert m.values_ "id" v := by
  unfold save saveWith
  by_cases h0 : QHash.size m.changedFields_ = 0 ∧ m.isNew c = false
  · left
    simp [h0]
  · by_cases hn : m.isNew c = true
    · by_cases hok : env.writeOk = true
      · simp only [h0, hn, hok, if_true, if_false]
        generalize (QMap.get? (m.saveValues c env reg).1 "id").getD QVariant.null = q
        unfold setValueVariant setValue
        by_cases hc : QHash.contains m.values_ "id" = true
        · by_cases he : ((QHash.get? m.values_ "id").getD Value.default).isEqual
              (Value.ofQVariant q) = true
          · left
            simp [hc, he]
          · right
            exact ⟨Value.ofQVariant q, by simp [hc, he]⟩
        · right
          exact ⟨Value.ofQVariant q, by simp [hc]⟩
      · left
        simp [h0, hn, hok]
    · left
      have hn2 : m.isNew c = false := by simpa using hn
      by_cases hs : QHash.size m.changedFields_ = 0 <;> simp [hs, hn2]

/-- C20: for every record, entity type and database answer, `save()` leaves every entry
of `values_` under a key other than the literal `id` as it was: under such a key the
record answers `valueIsSet` and `value`, and the map its lookup, as before the save.  So
a `created_time` or `updated_time` stamp and a UUID generated under a key name other
than `id` go to the database only, and when `primaryKey()` is not `id` the record is
new after the save exactly when it was before. -/
theorem save_frames_values (c : ModelClass) (env : SaveEnv) (reg : Registry)
    (cache : QHash QVariant) (m : BaseModel) (k : String) (hk : k ≠ "id") :
    QHash.get? (m.save c env reg cache).model.values_ k = QHash.get? m.values_ k ∧
    (m.save c env reg cache).model.valueIsSet k = m.valueIsSet k ∧
    (m.save c env reg cache).model.value k = m.value k ∧
    (c.primaryKey = k → (m.save c env reg cache).model.isNew c = m.isNew c) := by
  have hget : QHash.get? (m.save c env reg cache).model.values_ k = QHash.get? m.values_ k := by
    rcases save_model_values c env reg cache m with h | ⟨v, h⟩
    · rw [h]
    · rw [h, QHash.get?_insert_of_ne _ _ _ _ hk]
  have hset : (m.save c env reg cache).model.valueIsSet k = m.valueIsSet k := by
    simp only [valueIsSet, QHash.contains_eq_isSome_get?, hget]
  refine ⟨hget, hset, ?_, ?_⟩
  · simp only [value, hset, hget]
  · intro hpk
    simp only [isNew, hpk, hset]

/-- Witness of C20: a new folder record whose caller had set `created_time` to 5 is
saved at clock 1700000000123 ms with a successful INSERT; the record still holds
`created_time` = 5 afterwards, not the stamp. -/
theorem save_frames_values_witness :
    (((BaseModel.new.setValueString "title" "a").setValueInt "created_time" 5).save
        ⟨Table.FoldersTable, "id", true, false⟩ ⟨"u1", 1700000000123, true⟩ []
        []).model.value "created_time" = Value.ofInt 5 :=
  (save_frames_values ⟨Table.FoldersTable, "id", true, false⟩ ⟨"u1", 1700000000123, true⟩ []
    [] ((BaseModel.new.setValueString "title" "a").setValueInt "created_time" 5)
    "created_time" (by decide)).2.2.1.trans (by decide)

end BaseModel

/-! ## The nested `change.save()` does not depend on the answer to its INSERT -/

theorem saveValues_ignores_writeOk (c : ModelClass) (uuid : String) (nowMs : Int)
    (ok1 ok2 : Bool) (reg : Registry) (m : BaseModel) :
    BaseModel.saveValues c ⟨uuid, nowMs, ok1⟩ reg m =
      BaseModel.saveValues c ⟨uuid, nowMs, ok2⟩ reg m := by
  simp [BaseModel.saveValues, BaseModel.withUuid, BaseModel.withTimestamps]

theorem saveWith_ignores_writeOk_of_untracked (saveChange : Registry → QHash QVariant →
      BaseModel → Registry × QHash QVariant × List DbCall) (c : ModelClass)
    (hc : c.trackChanges = false) (uuid : String) (nowMs : Int) (ok1 ok2 : Bool)
    (reg : Registry) (cache : QHash QVariant) (m : BaseModel) :
    (BaseModel.saveWith saveChange c ⟨uuid, nowMs, ok1⟩ reg cache m).tableFields_ =
      (BaseModel.saveWith saveChange c ⟨uuid, nowMs, ok2⟩ reg cache m).tableFields_ ∧
    (BaseModel.saveWith saveChange c ⟨uuid, nowMs, ok1⟩ reg cache m).cache_ =
      (BaseModel.saveWith saveChange c ⟨uuid, nowMs, ok2⟩ reg cache m).cache_ ∧
    (BaseModel.saveWith saveChange c ⟨uuid, nowMs, ok1⟩ reg cache m).dbCalls =
      (BaseModel.saveWith saveChange c ⟨uuid, nowMs, ok2⟩ reg cache m).dbCalls := by
  have hv := saveValues_ignores_writeOk c uuid nowMs ok1 ok2 reg m
  unfold BaseModel.saveWith
  by_cases hn : BaseModel.isNew c m = true
  · simp [hn, BaseModel.saveJournal, hc, BaseModel.saveEach, hv]
  · have hn2 : BaseModel.isNew c m = false := by simpa using hn
    by_cases hs : QHash.size m.changedFields_ = 0
    · simp [hs, hn2]
    · simp [hs, hn2, BaseModel.saveJournal, hc, BaseModel.saveEach, hv]

/-- What a nested `change.save()` leaves behind is the same whatever the database
answers to its INSERT. -/
theorem saveChange_ignores_writeOk (uuid : String) (nowMs : Int) (ok1 ok2 : Bool)
    (reg : Registry) (cache : QHash QVariant) (change : BaseModel) :
    BaseModel.saveChange ⟨uuid, nowMs, ok1⟩ reg cache change =
      BaseModel.saveChange ⟨uuid, nowMs, ok2⟩ reg cache change := by
  have h := saveWith_ignores_writeOk_of_untracked (fun reg2 cache2 _ => (reg2, cache2, []))
    ModelClass.change rfl uuid nowMs ok1 ok2 reg cache change
  unfold BaseModel.saveChange
  simp only [h.1, h.2.1, h.2.2]

/-- With the declared schemas cached or not yet cached, saving a freshly built Change
record opens a transaction, inserts the fields of the record into the changes table and
commits; it drops the cached row count of the changes table and has the schema of that
table cached. -/
theorem saveChange_of_changeRecord (env : SaveEnv) (reg : Registry)
    (hreg : Registry.Consistent reg) (cache : QHash QVariant) (itemId : Value)
    (table : Table) (type : ChangeType) (itemField : Option String) :
    BaseModel.saveChange env reg cache (changeRecord itemId table type itemField) =
      ((tableFields reg Table.ChangesTable).2,
       cacheDelete cache "changes:count",
       [DbCall.transaction,
        DbCall.execInsert "changes"
          (BaseModel.collectValues (changeRecord itemId table type itemField)
            (changeRecord itemId table type itemField).changedFields),
        DbCall.commit]) := by
  have hfs := tableFields_fst_of_consistent reg Table.ChangesTable hreg
  have hnew : BaseModel.isNew ModelClass.change (changeRecord itemId table type itemField)
      = true := by
    cases itemField <;>
      simp [changeRecord, BaseModel.new, BaseModel.setValue, BaseModel.setValueInt,
        BaseModel.setValueString, BaseModel.isNew, BaseModel.valueIsSet, ModelClass.change,
        QHash.contains, QHash.insert]
  have hhas : hasField reg Table.ChangesTable "created_time" =
      (false, (tableFields reg Table.ChangesTable).2) := by
    simp [hasField, hfs, declaredFields, createField, anyFieldNamed]
  have hv : BaseModel.saveValues ModelClass.change env reg
      (changeRecord itemId table type itemField) =
      (BaseModel.collectValues (changeRecord itemId table type itemField)
        (changeRecord itemId table type itemField).changedFields,
       (tableFields reg Table.ChangesTable).2) := by
    simp only [BaseModel.saveValues, hnew]
    have ht : ModelClass.change.table = Table.ChangesTable := rfl
    have hu : ModelClass.change.primaryKeyIsUuid = false := rfl
    simp [BaseModel.withTimestamps, BaseModel.withUuid, ht, hu, hhas]
  unfold BaseModel.saveChange BaseModel.saveWith
  have htr : ModelClass.change.trackChanges = false := rfl
  have ht : ModelClass.change.table = Table.ChangesTable := rfl
  simp only [hnew, hv, BaseModel.saveJournal, htr, ht]
  simp [BaseModel.saveEach, tableName, countKey]

end jop
